import Mathlib

/-!
Shallow embedding of the tapgen template engine (tnychn/tapgen).

Source files embedded here:
  * src/variable.rs   — `Variable`, `Condition`, `Pattern`, `Variable::validate`
  * src/template.rs   — `Template::load`, `Template::init`, `Template::render_path`,
                        `Template::render_template`, `Template::generate`
  * src/metadata.rs   — `Metadata`, `GlobPatterns`
  * src/utils.rs      — `is_binary_buf`, `path_to_string`, error enums
  * src/generate.rs   — the variable-resolution loop of `Generate::run`,
                        `confirm_output`
  * src/copy.rs       — `copy_dir_all`

Modelling conventions:
  * Paths are lists of components (`List String`); `path_to_string` joins them
    with "/".  An absolute path starts with the empty component, so that
    `["", "t", "a.txt"]` prints as "/t/a.txt".
  * File bytes are `List Nat`.
  * TOML values are modelled to the depth the program consumes them: a
    top-level table of declarations, each declaration a table of fields whose
    values are scalars or arrays of scalars (deeper nesting never reaches the
    embedded code paths).
  * Third-party crates are embedded by their documented behaviour at the
    defaults the source uses: the `glob` crate's `Pattern::new` / `matches_path`
    (default `MatchOptions`: case_sensitive, no literal-separator or
    literal-leading-dot requirements), and `minijinja`'s template / expression
    engine restricted to the constructs the claims exercise (literal text and
    `\x7b\x7b ident \x7d\x7d` interpolation; expressions built from identifiers,
    booleans, integers, strings and `==`).  `Environment::new()` leaves
    minijinja's default `UndefinedBehavior::Lenient`, under which an undefined
    variable renders as the empty string; that default is part of the model.
  * Rust panics (`unwrap`, `expect`) are modelled by an explicit `panicked`
    outcome, distinct from returned errors.
-/

namespace Tapgen

/-- Scalar TOML values. -/
inductive TomlScalar where
  | str (s : String)
  | int (i : Int)
  | float
  | bool (b : Bool)
  | datetime
deriving DecidableEq, Repr

/-- A field value inside a variable declaration: a scalar or an array of
scalars (the depth the embedded code consumes). -/
inductive TomlField where
  | scalar (s : TomlScalar)
  | arr (xs : List TomlScalar)
deriving DecidableEq, Repr

/-- Model of `toml::Value` as it occurs as a top-level entry of the template
definition table. -/
inductive Toml where
  | scalar (s : TomlScalar)
  | arr (xs : List TomlScalar)
  | table (kvs : List (String × TomlField))
deriving DecidableEq, Repr

/-- Model of `toml::Value::type_str` on scalars. -/
def TomlScalar.type_str : TomlScalar → String
  | .str _ => "string"
  | .int _ => "integer"
  | .float => "float"
  | .bool _ => "boolean"
  | .datetime => "datetime"

/-- Model of `toml::Value::type_str`. -/
def Toml.type_str : Toml → String
  | .scalar s => s.type_str
  | .arr _ => "array"
  | .table _ => "table"

/-- Model of `toml::Value::as_str` on scalars. -/
def TomlScalar.as_str : TomlScalar → Option String
  | .str s => some s
  | _ => none

/-- Primitive minijinja values (the scalar shapes the program constructs). -/
inductive Prim where
  | pBool (b : Bool)
  | pInt (i : Int)
  | pStr (s : String)
deriving DecidableEq, Repr

/-- Model of `minijinja::Value` restricted to the shapes the program builds:
primitives, string/primitive lists (multi-select results), maps (the injected
`_git` / `_now` context entries) and the undefined value. -/
inductive Value where
  | vUndefined
  | vPrim (p : Prim)
  | vList (xs : List Prim)
  | vMap (kvs : List (String × Prim))
deriving DecidableEq, Repr

/-- Boolean minijinja value. -/
def Value.vBool (b : Bool) : Value := .vPrim (.pBool b)

/-- Integer minijinja value. -/
def Value.vInt (i : Int) : Value := .vPrim (.pInt i)

/-- String minijinja value. -/
def Value.vStr (s : String) : Value := .vPrim (.pStr s)

/-- Model of `minijinja::Value::is_true` (truthiness coercion). -/
def Value.is_true : Value → Bool
  | .vUndefined => false
  | .vPrim (.pBool b) => b
  | .vPrim (.pInt i) => decide (i ≠ 0)
  | .vPrim (.pStr s) => decide (s ≠ "")
  | .vList xs => decide (xs ≠ [])
  | .vMap kvs => decide (kvs ≠ [])

/-- Equality test used for the modelled `==` operator of minijinja expressions
(structural equality; on the value shapes the program compares this is
minijinja's behaviour). -/
def valueEq (a b : Value) : Bool := decide (a = b)

/-- Modelled subset of compiled minijinja expressions (`Expression`): the
constructs template conditions in the claims use. -/
inductive CExpr where
  | ident (name : String)
  | litBool (b : Bool)
  | litInt (i : Int)
  | litStr (s : String)
  | eq (a b : CExpr)
deriving DecidableEq, Repr

/-- The incrementally built render context: `HashMap<String, minijinja::Value>`
modelled as an association list with replace-on-insert semantics. -/
abbrev Ctx := List (String × Value)

/-- HashMap insert: replaces the value of an existing key, appends otherwise. -/
def ctxInsert : Ctx → String → Value → Ctx
  | [], k, v => [(k, v)]
  | (k₀, v₀) :: rest, k, v =>
    if k₀ = k then (k₀, v) :: rest else (k₀, v₀) :: ctxInsert rest k v

/-- HashMap lookup. -/
def ctxLookup (ctx : Ctx) (k : String) : Option Value := ctx.lookup k

/-- The list of defined keys of a context. -/
def ctxDom (ctx : Ctx) : List String := ctx.map Prod.fst

/-- Evaluation of a compiled condition expression against a context
(`Condition::eval` followed by the caller's use of the value).  An identifier
absent from the context evaluates to the undefined value (minijinja's lenient
default).  On the modelled subset evaluation is total. -/
def evalCExpr : CExpr → Ctx → Value
  | .ident n, ctx => (ctxLookup ctx n).getD .vUndefined
  | .litBool b, _ => .vBool b
  | .litInt i, _ => .vInt i
  | .litStr s, _ => .vStr s
  | .eq a b, ctx => .vBool (valueEq (evalCExpr a ctx) (evalCExpr b ctx))

/- ---------- minijinja expression compilation (Condition::try_from) ---------- -/

def isIdentStart (c : Char) : Bool :=
  (65 ≤ c.toNat && c.toNat ≤ 90) || (97 ≤ c.toNat && c.toNat ≤ 122) || c.toNat = 95

def isIdentChar (c : Char) : Bool :=
  isIdentStart c || (48 ≤ c.toNat && c.toNat ≤ 57)

def isWs (c : Char) : Bool := c = ' ' || c.toNat = 9

def skipWs (l : List Char) : List Char := l.dropWhile isWs

def isDigit (c : Char) : Bool := 48 ≤ c.toNat && c.toNat ≤ 57

/-- Parse one atom of the modelled expression subset: identifier, boolean or
integer literal, or quoted string literal. -/
def parseAtom (l : List Char) : Option (CExpr × List Char) :=
  match l with
  | [] => none
  | c :: _ =>
    if c.toNat = 34 || c.toNat = 39 then
      let body := (l.drop 1).takeWhile (fun d => d ≠ c)
      let rest := (l.drop 1).dropWhile (fun d => d ≠ c)
      match rest with
      | [] => none
      | _ :: rest => some (.litStr (String.mk body), rest)
    else if isDigit c then
      let digits := l.takeWhile isDigit
      let rest := l.dropWhile isDigit
      some (.litInt (String.toInt! (String.mk digits)), rest)
    else if isIdentStart c then
      let name := l.takeWhile isIdentChar
      let rest := l.dropWhile isIdentChar
      if String.mk name = "true" then some (.litBool true, rest)
      else if String.mk name = "false" then some (.litBool false, rest)
      else some (.ident (String.mk name), rest)
    else none

/-- Model of compiling a condition string into a reusable expression
(`Environment::compile_expression_owned`), restricted to the modelled subset:
`atom` or `atom == atom`.  A malformed string yields `none` (the compile
error). -/
def compileExpr (s : String) : Option CExpr :=
  match parseAtom (skipWs s.data) with
  | none => none
  | some (a, rest) =>
    match skipWs rest with
    | [] => some a
    | '=' :: '=' :: rest₂ =>
      match parseAtom (skipWs rest₂) with
      | none => none
      | some (b, rest₃) => if (skipWs rest₃).isEmpty then some (.eq a b) else none
    | _ => none

/- ---------- src/variable.rs ---------- -/

/-- Model of `variable::Pattern` (a compiled `regex::Regex`).  `Variable::validate`
only ever tests this field for presence — it never calls `is_match` — so the
model retains the source string and no matching function. -/
structure RegexP where
  src : String
deriving DecidableEq, Repr

/-- Model of `utils::ValidateVariableError` (the causes raised by
`Variable::validate` in src/variable.rs). -/
inductive ValidateVariableError where
  | unsupportedType (type_str : String)
  | illegalField (field : String) (type_str : String)
  | defaultOutsideChoices
  | unreasonableRange
deriving DecidableEq, Repr

/-- Model of `variable::Variable`: the deserialized shape of one variable
declaration.  The `condition` field holds the expression already compiled at
deserialization time (`Condition::try_from` runs inside serde). -/
structure Variable where
  default : Toml
  prompt : String
  choices : Option (List String)
  range : Option (Int × Int)
  pattern : Option RegexP
  condition : Option CExpr
deriving DecidableEq, Repr

/-- Direct translation of `Variable::validate` (src/variable.rs, lines 64-134). -/
def Variable.validate (self : Variable) : Except ValidateVariableError Variable := do
  match self.default with
  | .scalar (.str _) | .arr _ | .scalar (.int _) | .scalar (.bool _) => pure ()
  | _ => throw (.unsupportedType self.default.type_str)
  match self.choices with
  | some choices =>
    if self.pattern.isSome then
      throw (.illegalField "pattern with choices" self.default.type_str)
    if choices.isEmpty then
      throw .defaultOutsideChoices
    match self.default with
    | .scalar (.str default) =>
      if default ≠ "" && !(choices.any (fun choice => choice = default)) then
        throw .defaultOutsideChoices
    | .arr default =>
      if !default.isEmpty &&
          default.any (fun d =>
            match d.as_str with
            | none => true
            | some d => !(choices.contains d)) then
        throw .defaultOutsideChoices
    | _ => throw (.illegalField "choices" self.default.type_str)
  | none => pure ()
  match self.range with
  | some (min, max) =>
    match self.default with
    | .scalar (.int default) =>
      if min ≥ max || default < min || default > max then
        throw .unreasonableRange
    | _ => throw (.illegalField "range" self.default.type_str)
  | none => pure ()
  if self.pattern.isSome then
    match self.default with
    | .scalar (.str _) => pure ()
    | _ => throw (.illegalField "pattern" self.default.type_str)
  return self

/- ---------- loading variable declarations (Template::load) ---------- -/

/-- Load-time errors (model of `utils::Error` plus the serde/schema failures
that `Template::load` propagates). -/
inductive LoadError where
  | schemaError (msg : String)
  | compileCondition (src : String)
  | validateVariable (name : String) (cause : ValidateVariableError)
  | uncanonicalizableBasePath
  | templateSyntax (name : String)
deriving DecidableEq, Repr

/-- Field lookup in a declaration table. -/
def fieldLookup (kvs : List (String × TomlField)) (key : String) : Option TomlField :=
  kvs.lookup key

/-- Parsing the required `default` field of a declaration. -/
def parseDefaultField (kvs : List (String × TomlField)) : Except LoadError Toml :=
  match fieldLookup kvs "default" with
  | some (.scalar s) => .ok (Toml.scalar s)
  | some (.arr xs) => .ok (Toml.arr xs)
  | none => .error (.schemaError "missing field default")

/-- Parsing the required `prompt` field of a declaration. -/
def parsePromptField (kvs : List (String × TomlField)) : Except LoadError String :=
  match fieldLookup kvs "prompt" with
  | some (.scalar (.str p)) => .ok p
  | some _ => .error (.schemaError "prompt: expected string")
  | none => .error (.schemaError "missing field prompt")

/-- Parsing the optional `choices` field (a string array). -/
def parseChoicesField (kvs : List (String × TomlField)) :
    Except LoadError (Option (List String)) :=
  match fieldLookup kvs "choices" with
  | none => .ok none
  | some (.arr xs) =>
    if xs.any (fun x => x.as_str.isNone) then
      .error (.schemaError "choices: expected strings")
    else .ok (some (xs.filterMap TomlScalar.as_str))
  | some _ => .error (.schemaError "choices: expected array")

/-- Parsing the optional `range` field (a pair of integers). -/
def parseRangeField (kvs : List (String × TomlField)) :
    Except LoadError (Option (Int × Int)) :=
  match fieldLookup kvs "range" with
  | none => .ok none
  | some (.arr [.int lo, .int hi]) => .ok (some (lo, hi))
  | some _ => .error (.schemaError "range: expected a pair of integers")

/-- Parsing the optional `pattern` field (a string compiled as a regex —
`Pattern::try_from` inside serde). -/
def parsePatternField (kvs : List (String × TomlField)) :
    Except LoadError (Option RegexP) :=
  match fieldLookup kvs "pattern" with
  | none => .ok none
  | some (.scalar (.str p)) => .ok (some (RegexP.mk p))
  | some _ => .error (.schemaError "pattern: expected string")

/-- Parsing the optional `condition` field: the string is compiled into an
expression at deserialization time (`Condition::try_from` inside serde);
compile failure is a load-time error. -/
def parseConditionField (kvs : List (String × TomlField)) :
    Except LoadError (Option CExpr) :=
  match fieldLookup kvs "condition" with
  | none => .ok none
  | some (.scalar (.str c)) =>
    match compileExpr c with
    | some e => .ok (some e)
    | none => .error (.compileCondition c)
  | some _ => .error (.schemaError "condition: expected string")

/-- Model of deserializing one `toml::Value` into a `Variable`
(`value.try_into::<Variable>()`): the declaration must be a table whose keys
are among the six known fields (serde `deny_unknown_fields`), with `default`
and `prompt` required, `choices` a string array, `range` a pair of integers,
`pattern` a string compiled as a regex and `condition` a string compiled as an
expression (compile failure is a deserialization error). -/
def parseVariable (v : Toml) : Except LoadError Variable :=
  match v with
  | .table kvs =>
    let known := ["default", "prompt", "choices", "range", "pattern", "condition"]
    if kvs.any (fun kv => !(known.contains kv.1)) then
      .error (.schemaError "unknown field")
    else
      (parseDefaultField kvs).bind fun default =>
      (parsePromptField kvs).bind fun prompt =>
      (parseChoicesField kvs).bind fun choices =>
      (parseRangeField kvs).bind fun range =>
      (parsePatternField kvs).bind fun pattern =>
      (parseConditionField kvs).bind fun condition =>
      .ok (Variable.mk default prompt choices range pattern condition)
  | _ => .error (.schemaError "expected table")

/-- Model of the reserved-key test of `Template::load`
(`name.starts_with("__") && name.ends_with("__")`): a top-level key bracketed
by double underscores is metadata, everything else is a variable declaration.
Stated over the character list so that it evaluates by kernel reduction. -/
def isMetaKey (name : String) : Bool :=
  decide (name.data.take 2 = ['_', '_']) && decide (name.data.reverse.take 2 = ['_', '_'])

/-- The variable-collection loop of `Template::load` (src/template.rs, lines
35-46): iterate the parsed top-level table, skip metadata keys, deserialize
and validate each remaining declaration, and keep them in iteration order
(`IndexMap` preserves insertion order; top-level TOML keys are unique).

Modelled from the spec: the iteration order of the parsed `toml::Table` is
decided by the `preserve_order` cargo feature in the repository's Cargo.toml,
which is not under src/; per the spec ("all remaining top-level keys are
variable declarations, kept in source order") the table is modelled as an
ordered list of key/value pairs in source order. -/
def loadVariables : List (String × Toml) → Except LoadError (List (String × Variable))
  | [] => .ok []
  | (name, v) :: rest =>
    if isMetaKey name then loadVariables rest
    else
      (parseVariable v).bind fun pv =>
      (match pv.validate with
       | .ok w => Except.ok w
       | .error e => Except.error (LoadError.validateVariable name e)).bind fun vr =>
      (loadVariables rest).bind fun tail =>
      .ok ((name, vr) :: tail)

/- ---------- the resolution loop of Generate::run (src/generate.rs, 138-154) ---------- -/

/-- One iteration of the resolution loop: if the variable has a condition,
evaluate it against the values resolved so far and skip the variable when it
is not truthy; otherwise prompt for a value (the injected `provider` stands
for `prompt_variable`) and insert it. -/
def resolveStep (provider : String → Variable → Value) (values : Ctx)
    (nv : String × Variable) : Ctx :=
  match nv.2.condition with
  | some cond =>
    if (evalCExpr cond values).is_true then
      ctxInsert values nv.1 (provider nv.1 nv.2)
    else values
  | none => ctxInsert values nv.1 (provider nv.1 nv.2)

/-- The resolution loop of `Generate::run`: fold over the declarations in
order, starting from the context seeded with the injected values. -/
def resolveVariables (provider : String → Variable → Value)
    (vars : List (String × Variable)) (values : Ctx) : Ctx :=
  vars.foldl (resolveStep provider) values

/- ---------- utils.rs helpers ---------- -/

/-- Model of `utils::is_binary_buf`: the buffer contains a NUL byte. -/
def is_binary_buf (buf : List Nat) : Bool := buf.contains 0

/-- Model of `utils::path_to_string`: join the components with "/". -/
def path_to_string : List String → String
  | [] => ""
  | [x] => x
  | x :: rest => x ++ "/" ++ path_to_string rest

/-- UTF-8 encoding of one character. -/
def charUtf8 (c : Char) : List Nat :=
  let n := c.toNat
  if n < 0x80 then [n]
  else if n < 0x800 then [0xC0 + n / 64, 0x80 + n % 64]
  else if n < 0x10000 then [0xE0 + n / 4096, 0x80 + (n / 64) % 64, 0x80 + n % 64]
  else [0xF0 + n / 262144, 0x80 + (n / 4096) % 64, 0x80 + (n / 64) % 64, 0x80 + n % 64]

/-- UTF-8 encoding of a string. -/
def utf8Encode (s : String) : List Nat := s.data.flatMap charUtf8

/-- UTF-8 decoding (model of `String::from_utf8`): `none` on invalid input.
Overlong encodings, surrogates and out-of-range code points are rejected. -/
def utf8Decode : List Nat → Option (List Char)
  | [] => some []
  | b :: rest =>
    if b < 0x80 then
      (utf8Decode rest).map (Char.ofNat b :: ·)
    else if 0xC2 ≤ b && b ≤ 0xDF then
      match rest with
      | b₂ :: rest₂ =>
        if 0x80 ≤ b₂ && b₂ ≤ 0xBF then
          (utf8Decode rest₂).map (Char.ofNat ((b - 0xC0) * 64 + (b₂ - 0x80)) :: ·)
        else none
      | _ => none
    else if 0xE0 ≤ b && b ≤ 0xEF then
      match rest with
      | b₂ :: b₃ :: rest₃ =>
        let n := (b - 0xE0) * 4096 + (b₂ - 0x80) * 64 + (b₃ - 0x80)
        if 0x80 ≤ b₂ && b₂ ≤ 0xBF && 0x80 ≤ b₃ && b₃ ≤ 0xBF
            && 0x800 ≤ n && !(0xD800 ≤ n && n ≤ 0xDFFF) then
          (utf8Decode rest₃).map (Char.ofNat n :: ·)
        else none
      | _ => none
    else if 0xF0 ≤ b && b ≤ 0xF4 then
      match rest with
      | b₂ :: b₃ :: b₄ :: rest₄ =>
        let n := (b - 0xF0) * 262144 + (b₂ - 0x80) * 4096 + (b₃ - 0x80) * 64 + (b₄ - 0x80)
        if 0x80 ≤ b₂ && b₂ ≤ 0xBF && 0x80 ≤ b₃ && b₃ ≤ 0xBF && 0x80 ≤ b₄ && b₄ ≤ 0xBF
            && 0x10000 ≤ n && n ≤ 0x10FFFF then
          (utf8Decode rest₄).map (Char.ofNat n :: ·)
        else none
      | _ => none
    else none

/- ---------- minijinja templates (environment.add_template / render) ---------- -/

/-- A token of a parsed minijinja template: literal character or a variable
interpolation (modelled subset: `\x7b\x7b ident \x7d\x7d`). -/
inductive Tok where
  | ch (c : Char)
  | var (name : String)
deriving DecidableEq, Repr

/-- The char that opens an interpolation. -/
def lbrace : Char := Char.ofNat 123

/-- The char that closes an interpolation. -/
def rbrace : Char := Char.ofNat 125

/-- Parse the content collected between `\x7b\x7b` and `\x7d\x7d`: optional
whitespace, one identifier, optional whitespace (the modelled expression
subset for interpolations). -/
def parseVarBody (l : List Char) : Option String :=
  match skipWs l with
  | [] => none
  | c :: rest =>
    if isIdentStart c then
      if (skipWs ((c :: rest).dropWhile isIdentChar)).isEmpty then
        some (String.mk ((c :: rest).takeWhile isIdentChar))
      else none
    else none

/-- Scanner mode: in literal text, or inside an interpolation collecting its
body (in reverse order). -/
inductive ScanMode where
  | lit
  | varAcc (acc : List Char)
deriving DecidableEq, Repr

/-- Template scanner: splits the source into literal characters and
interpolations.  An unterminated or malformed interpolation is a syntax
error (`none`). -/
def scanTmpl : ScanMode → List Char → Option (List Tok)
  | .lit, [] => some []
  | .lit, c :: rest =>
    if c = lbrace then
      match rest with
      | c₂ :: rest₂ =>
        if c₂ = lbrace then scanTmpl (.varAcc []) rest₂
        else (scanTmpl .lit rest₂).map (Tok.ch c :: Tok.ch c₂ :: ·)
      | [] => some [Tok.ch c]
    else (scanTmpl .lit rest).map (Tok.ch c :: ·)
  | .varAcc _, [] => none
  | .varAcc acc, c :: rest =>
    if c = rbrace then
      match rest with
      | c₂ :: rest₂ =>
        if c₂ = rbrace then
          match parseVarBody acc.reverse with
          | some name => (scanTmpl .lit rest₂).map (Tok.var name :: ·)
          | none => none
        else scanTmpl (.varAcc (c₂ :: c :: acc)) rest₂
      | [] => none
    else scanTmpl (.varAcc (c :: acc)) rest

/-- A parsed template. -/
abbrev Tmpl := List Tok

/-- Parse a template source string (model of what
`Environment::add_template_owned` / `render_str` do before rendering).  A
parse failure is minijinja's syntax error. -/
def parseTmpl (source : String) : Option Tmpl := scanTmpl .lit source.data

/-- How a value prints inside rendered output (minijinja display). -/
def primToString : Prim → String
  | .pBool b => if b then "true" else "false"
  | .pInt i => toString i
  | .pStr s => s

/-- Display of a context value in rendered output.  The undefined value
renders as the empty string: minijinja's default `UndefinedBehavior::Lenient`,
which `Environment::new()` (src/template.rs, line 55) leaves in place. -/
def valueToString : Value → String
  | .vUndefined => ""
  | .vPrim p => primToString p
  | .vList xs => String.intercalate ", " (xs.map primToString)
  | .vMap kvs => String.intercalate ", " (kvs.map (fun kv => kv.1 ++ ": " ++ primToString kv.2))

/-- The characters a parsed template renders to against a context.  On the
modelled (lenient) subset rendering is total. -/
def renderChars (values : Ctx) : Tmpl → List Char
  | [] => []
  | .ch c :: rest => c :: renderChars values rest
  | .var n :: rest =>
    (valueToString ((ctxLookup values n).getD .vUndefined)).data ++ renderChars values rest

/-- Render a parsed template against a context. -/
def renderToks (values : Ctx) (toks : Tmpl) : String := String.mk (renderChars values toks)

/-- Render errors at generation time (minijinja errors and file I/O). -/
inductive GenError where
  | parseError
  | templateNotFound (name : String)
  | ioError
deriving DecidableEq, Repr

/-- Model of `Environment::render_str`: parse the one-off template and render
it.  With lenient undefined behaviour the only failure is a syntax error. -/
def renderStr (source : String) (values : Ctx) : Except GenError String :=
  match parseTmpl source with
  | none => .error .parseError
  | some toks => .ok (renderToks values toks)

/- ---------- Rust char::escape_default, used by Template::render_path ---------- -/

/-- Model of `char::escape_default` for one character: named escapes for
tab/newline/carriage-return/backslash/quotes, printable ASCII unchanged,
`\u\x7b…\x7d` hex escapes otherwise. -/
def escChar (c : Char) : List Char :=
  let backslash := Char.ofNat 92
  if c.toNat = 9 then [backslash, 't']
  else if c.toNat = 10 then [backslash, 'n']
  else if c.toNat = 13 then [backslash, 'r']
  else if c.toNat = 92 then [backslash, backslash]
  else if c.toNat = 39 then [backslash, Char.ofNat 39]
  else if c.toNat = 34 then [backslash, Char.ofNat 34]
  else if 0x20 ≤ c.toNat && c.toNat ≤ 0x7E then [c]
  else backslash :: 'u' :: lbrace :: (Nat.toDigits 16 c.toNat) ++ [rbrace]

/-- Model of `str::escape_default`. -/
def escapeDefault (s : String) : String := String.mk (s.data.flatMap escChar)

/-- Direct translation of `Template::render_path` (src/template.rs, lines
94-102): print the path, escape it, and render it as a one-off template
against the values. -/
def render_path (path : List String) (values : Ctx) : Except GenError String :=
  renderStr (escapeDefault (path_to_string path)) values

/- ---------- glob crate: Pattern::new and matches_path ---------- -/

/-- Model of `glob::CharSpecifier`. -/
inductive CharSpecifier where
  | single (c : Char)
  | range (lo hi : Char)
deriving DecidableEq, Repr

/-- Model of `glob::PatternToken`. -/
inductive PatToken where
  | char (c : Char)
  | anyChar
  | anySeq
  | anyRecSeq
  | anyWithin (specs : List CharSpecifier)
  | anyExcept (specs : List CharSpecifier)
deriving DecidableEq, Repr

/-- Model of `glob::parse_char_specifiers`: `a-b` triples become ranges,
everything else single characters. -/
def parseCharSpecifiers : List Char → List CharSpecifier
  | a :: '-' :: b :: rest => .range a b :: parseCharSpecifiers rest
  | a :: rest => .single a :: parseCharSpecifiers rest
  | [] => []

/-- Split a char-class body at its first `]`: returns the contents before it
and the remainder after it, or `none` when the class is unclosed. -/
def splitRBracket : List Char → Option (List Char × List Char)
  | [] => none
  | ']' :: rest => some ([], rest)
  | c :: rest => (splitRBracket rest).map (fun p => (c :: p.1, p.2))

/-- Cons an `AnyRecursiveSequence` token unless one is already adjacent
(`Pattern::new` skips consecutive recursive wildcards). -/
def pushRec (toks : List PatToken) : List PatToken :=
  match toks with
  | .anyRecSeq :: _ => toks
  | _ => .anyRecSeq :: toks

/-- Model of the token loop of `glob::Pattern::new`.  `afterSep` records
whether the previous character was a path separator (or the start of the
pattern), which gates `**`.  The `fuel` argument only discharges termination:
every step consumes at least one character, and the entry point passes the
input length, so fuel is never exhausted. -/
def parseTokens : Nat → List Char → Bool → Option (List PatToken)
  | _, [], _ => some []
  | 0, _ :: _, _ => none
  | fuel + 1, l, afterSep =>
    match l with
    | [] => some []
    | '?' :: rest => (parseTokens fuel rest false).map (.anyChar :: ·)
    | '*' :: '*' :: '*' :: _ => none
    | '*' :: '*' :: rest =>
      if afterSep then
        match rest with
        | [] => some [.anyRecSeq]
        | '/' :: rest₂ => (parseTokens fuel rest₂ true).map pushRec
        | _ => none
      else none
    | '*' :: rest => (parseTokens fuel rest false).map (.anySeq :: ·)
    | '[' :: '!' :: c₀ :: rest₀ =>
      match splitRBracket rest₀ with
      | some (inner, rest₂) =>
        (parseTokens fuel rest₂ false).map (.anyExcept (parseCharSpecifiers (c₀ :: inner)) :: ·)
      | none => none
    | '[' :: c₀ :: rest₀ =>
      if c₀ = '!' then none
      else
        match splitRBracket rest₀ with
        | some (inner, rest₂) =>
          (parseTokens fuel rest₂ false).map (.anyWithin (parseCharSpecifiers (c₀ :: inner)) :: ·)
        | none => none
    | ['['] => none
    | c :: rest => (parseTokens fuel rest (c = '/')).map (.char c :: ·)

/-- A compiled glob pattern. -/
structure GlobPattern where
  tokens : List PatToken
deriving DecidableEq, Repr

/-- Model of `glob::Pattern::new`: `none` is the `PatternError` (unclosed
character class, or misplaced/overlong wildcards). -/
def GlobPattern.new (s : String) : Option GlobPattern :=
  (parseTokens s.data.length s.data true).map GlobPattern.mk

/-- Model of `glob::MatchResult`. -/
inductive MatchResult where
  | matches
  | subNoMatch
  | entireNoMatch
deriving DecidableEq, Repr

/-- Model of `glob::in_char_specifiers` at default options (case sensitive). -/
def inCharSpecifiers (specs : List CharSpecifier) (c : Char) : Bool :=
  specs.any (fun s =>
    match s with
    | .single c₂ => c = c₂
    | .range lo hi => lo ≤ c && c ≤ hi)

/-- The wildcard loop of `glob::Pattern::matches_from` for `*` / `**`:
consume one character at a time, retrying the rest of the pattern
(`submatch`) after each; a recursive wildcard only retries at component
boundaries. -/
def starLoop (submatch : Bool → List Char → MatchResult) (isRec : Bool) :
    Bool → List Char → MatchResult
  | _, [] => .subNoMatch
  | _, c :: file =>
    let follows := c = '/'
    if isRec && !follows then starLoop submatch isRec follows file
    else
      match submatch follows file with
      | .subNoMatch => starLoop submatch isRec follows file
      | m => m

/-- Model of `glob::Pattern::matches_from` at default `MatchOptions`
(case-sensitive; `*`, `?` and character classes may match the separator). -/
def matchesFrom : List PatToken → Bool → List Char → MatchResult
  | [], _, file => if file.isEmpty then .matches else .subNoMatch
  | tok :: rest, follows, file =>
    match tok with
    | .anySeq =>
      (match matchesFrom rest follows file with
       | .subNoMatch => starLoop (matchesFrom rest) false follows file
       | m => m)
    | .anyRecSeq =>
      (match matchesFrom rest follows file with
       | .subNoMatch => starLoop (matchesFrom rest) true follows file
       | m => m)
    | _ =>
      match file with
      | [] => .entireNoMatch
      | c :: file₂ =>
        let ok : Bool :=
          match tok with
          | .char c₂ => c = c₂
          | .anyChar => true
          | .anyWithin specs => inCharSpecifiers specs c
          | .anyExcept specs => !(inCharSpecifiers specs c)
          | _ => false
        if ok then matchesFrom rest (c = '/') file₂ else .subNoMatch

/-- Model of `glob::Pattern::matches` (and `matches_path` after printing the
path): run the matcher from the start-of-path state. -/
def GlobPattern.matchesStr (p : GlobPattern) (s : String) : Bool :=
  matchesFrom p.tokens true s.data = .matches

/-- Model of `metadata::GlobPatterns::matches_path_any`. -/
def matchesPathAny (pats : List GlobPattern) (path : List String) : Bool :=
  pats.any (fun p => p.matchesStr (path_to_string path))

/- ---------- filesystem model and the walkdir walk ---------- -/

mutual
/-- An in-memory filesystem node: a file with its raw bytes, or a directory
with named children. -/
inductive FsTree where
  | file (content : List Nat)
  | dir (children : FsForest)

/-- The named children of a directory, in stored order.  `WalkDir`'s
`sort_by_file_name` yields siblings in file-name order; the model walks
children in stored order, so a tree whose sibling lists are stored in
file-name order walks exactly like the source (all concrete trees used below
are stored sorted). -/
inductive FsForest where
  | nil
  | cons (name : String) (t : FsTree) (rest : FsForest)
end

/-- Is this node a file? -/
def FsTree.isFile : FsTree → Bool
  | .file _ => true
  | .dir _ => false

/-- A walked entry: its path relative to the template root, and the node. -/
abbrev WEntry := List String × FsTree

mutual
/-- Model of iterating `WalkDir::new(base)`: the root entry first, then each
child subtree in order, depth-first (every entry before its contents'
entries). -/
def walkTree (rel : List String) (t : FsTree) : List WEntry :=
  (rel, t) ::
    (match t with
     | .file _ => []
     | .dir children => walkForest rel children)

/-- Walk the children of a directory in order. -/
def walkForest (rel : List String) : FsForest → List WEntry
  | .nil => []
  | .cons name t rest => walkTree (rel ++ [name]) t ++ walkForest rel rest
end

/-- Navigate to the node at a relative path (model of joining
`Metadata.base` to the root and requiring it to exist via `canonicalize`). -/
def navigate : FsTree → List String → Option FsTree
  | t, [] => some t
  | .file _, _ :: _ => none
  | .dir children, name :: rest =>
    match findChild children name with
    | some child => navigate child rest
    | none => none
where
  /-- Lookup of a named child in a forest. -/
  findChild : FsForest → String → Option FsTree
    | .nil, _ => none
    | .cons n t rest, name => if n = name then some t else findChild rest name

/- ---------- the entry tree (BTreeMap<usize, Vec<DirEntry>>) ---------- -/

/-- The depth-keyed entry store, modelling `BTreeMap<usize, Vec<DirEntry>>`
as an association list with strictly ascending keys. -/
abbrev EntryMap := List (Nat × List WEntry)

/-- Insert an entry into its depth bucket, keeping keys sorted and appending
within a bucket (`self.entries.entry(depth).or_default().push(entry)`). -/
def btreeInsert (m : EntryMap) (k : Nat) (e : WEntry) : EntryMap :=
  match m with
  | [] => [(k, [e])]
  | (k₀, es) :: rest =>
    if k < k₀ then (k, [e]) :: (k₀, es) :: rest
    else if k = k₀ then (k₀, es ++ [e]) :: rest
    else (k₀, es) :: btreeInsert rest k e

/-- Flatten the store in key order (`self.entries.values().flatten()`). -/
def entryMapFlatten (m : EntryMap) : List WEntry := m.flatMap Prod.snd

/- ---------- Template::init (src/template.rs, lines 70-92) ---------- -/

/-- Metadata model (src/metadata.rs): `base` as components relative to the
template root; `copy` and `exclude` as compiled glob pattern lists. -/
structure Metadata where
  name : String
  author : String
  url : Option String
  description : Option String
  base : List String
  copy : List GlobPattern
  exclude : List GlobPattern

/-- Outcome of running a fallible, possibly panicking piece of code: a
returned value, a returned error, or a Rust panic. -/
inductive POut (ε α : Type) where
  | ok (a : α)
  | err (e : ε)
  | panicked (msg : String)

/-- The state threaded through `Template::init`'s walk loop: the (growing)
copy pattern set, the registered templates, and the entry store. -/
structure InitState where
  copy : List GlobPattern
  env : List (String × Tmpl)
  entries : EntryMap

/-- Direct translation of the walk loop of `Template::init`: for each entry,
skip it if its root-relative path matches an exclude pattern; for a file,
read its bytes, push its printed path onto the copy set when binary
(panicking if that path is not a valid glob pattern — the unchecked
`unwrap`), otherwise register it as a template unless it matches a copy
pattern (panicking on non-UTF-8 contents — the `expect`, and failing on
template syntax errors); finally store the entry keyed by its component
count. -/
def initGo (exclude : List GlobPattern) : List WEntry → InitState → POut LoadError InitState
  | [], st => .ok st
  | (rel, node) :: rest, st =>
    if matchesPathAny exclude rel then initGo exclude rest st
    else
      match node with
      | .file buf =>
        if is_binary_buf buf then
          match GlobPattern.new (path_to_string rel) with
          | some p =>
            initGo exclude rest
              { st with
                copy := st.copy ++ [p],
                entries := btreeInsert st.entries rel.length (rel, node) }
          | none => .panicked "called Result::unwrap on an Err value: PatternError"
        else if matchesPathAny st.copy rel then
          initGo exclude rest
            { st with entries := btreeInsert st.entries rel.length (rel, node) }
        else
          match utf8Decode buf with
          | none => .panicked "file encoding should be utf-8"
          | some chars =>
            match scanTmpl .lit chars with
            | none => .err (.templateSyntax (path_to_string rel))
            | some toks =>
              initGo exclude rest
                { st with
                  env := st.env ++ [(path_to_string rel, toks)],
                  entries := btreeInsert st.entries rel.length (rel, node) }
      | .dir _ =>
        initGo exclude rest
          { st with entries := btreeInsert st.entries rel.length (rel, node) }

/-- The loaded template model (`template::Template`).  The source stores the
absolute base path; here `root` and `baseRel` are kept separately, with the
absolute base equal to `root ++ baseRel`. -/
structure Template where
  root : List String
  baseRel : List String
  metadata : Metadata
  vars : List (String × Variable)
  entries : EntryMap
  env : List (String × Tmpl)

/-- The flattened iteration order of the entry tree
(`self.entries.values().flatten()`), as consumed by `Template::generate`. -/
def Template.entriesList (t : Template) : List WEntry := entryMapFlatten t.entries

/-- Model of `Template::load` after TOML parsing (src/template.rs, lines
29-68 plus `init`): collect and validate the variable declarations, resolve
the base path against the tree rooted at the template root (failure is the
`UncanonicalizableBasePath` error), then run the walk loop over the base
subtree.  Parsing the definition file's text into the metadata record and the
top-level table is not modelled; both are taken as inputs. -/
def loadTemplate (root : List String) (meta : Metadata) (table : List (String × Toml))
    (tree : FsTree) : POut LoadError Template :=
  match loadVariables table with
  | .error e => .err e
  | .ok vars =>
    match navigate tree meta.base with
    | none => .err .uncanonicalizableBasePath
    | some baseNode =>
      match initGo meta.exclude (walkTree meta.base baseNode)
          (InitState.mk meta.copy [] []) with
      | .panicked m => .panicked m
      | .err e => .err e
      | .ok st =>
        .ok (Template.mk root meta.base { meta with copy := st.copy } vars st.entries st.env)

/- ---------- Template::generate (src/template.rs, lines 117-141) ---------- -/

/-- The staged output tree inside the temporary directory: rendered paths
(strings relative to the tempdir) mapped to file bytes, plus the set of
existing directories.  The tempdir itself is the empty path. -/
structure StagedFs where
  files : List (String × List Nat)
  dirs : List String

/-- Split a character list at separators (model of `str::split` on "/"). -/
def splitSlash : List Char → List (List Char)
  | [] => [[]]
  | c :: rest =>
    match splitSlash rest with
    | [] => [[c]]
    | g :: gs => if c = '/' then [] :: g :: gs else (c :: g) :: gs

/-- Join character-list components with separators. -/
def joinSlash : List (List Char) → List Char
  | [] => []
  | [g] => g
  | g :: gs => g ++ '/' :: joinSlash gs

/-- Parent of a rendered path: the prefix before its last separator, or the
tempdir root. -/
def parentPath (s : String) : String :=
  let parts := splitSlash s.data
  if parts.length ≤ 1 then "" else String.mk (joinSlash parts.dropLast)

/-- All ancestor paths of a rendered path, from the tempdir root down. -/
def ancestorPaths (s : String) : List String :=
  let parts := splitSlash s.data
  (List.range (parts.length + 1)).map (fun k => String.mk (joinSlash (parts.take k)))

/-- Replace or append a staged file. -/
def stagedSetFile : List (String × List Nat) → String → List Nat → List (String × List Nat)
  | [], p, content => [(p, content)]
  | (p₀, c₀) :: rest, p, content =>
    if p₀ = p then (p₀, content) :: rest
    else (p₀, c₀) :: stagedSetFile rest p content

/-- Model of `fs::create_dir_all` inside the staging directory: create the
path and every missing ancestor (idempotent). -/
def stagedMkdirAll (st : StagedFs) (p : String) : StagedFs :=
  { st with dirs := st.dirs ++ (ancestorPaths p).filter (fun d => !(st.dirs.contains d)) }

/-- Model of `File::create` / the write side of `fs::copy`: fails unless the
parent directory exists. -/
def stagedWrite (st : StagedFs) (p : String) (content : List Nat) : Option StagedFs :=
  if st.dirs.contains (parentPath p) then
    some { st with files := stagedSetFile st.files p content }
  else none

/-- Direct translation of the entry loop of `Template::generate`: for each
entry in ascending-depth order, render its relative path, record the
basename when the entry is the base, then copy the file verbatim when the
copy patterns match its ABSOLUTE path (`entry.path()`), render the
registered template otherwise, or create the directory. -/
def generateGo (root baseRel : List String) (copy : List GlobPattern)
    (env : List (String × Tmpl)) (values : Ctx) :
    List WEntry → StagedFs → Option String → POut GenError (StagedFs × Option String)
  | [], st, basename => .ok (st, basename)
  | (rel, node) :: rest, st, basename =>
    match render_path rel values with
    | .error e => .err e
    | .ok rendered =>
      let basename := if rel = baseRel then some rendered else basename
      match node with
      | .file buf =>
        if matchesPathAny copy (root ++ rel) then
          match stagedWrite st rendered buf with
          | some st => generateGo root baseRel copy env values rest st basename
          | none => .err .ioError
        else
          match (env.lookup (path_to_string rel)) with
          | none => .err (.templateNotFound (path_to_string rel))
          | some toks =>
            match stagedWrite st rendered (utf8Encode (renderToks values toks)) with
            | some st => generateGo root baseRel copy env values rest st basename
            | none => .err .ioError
      | .dir _ =>
        generateGo root baseRel copy env values rest (stagedMkdirAll st rendered) basename

/-- Model of `Template::generate`: run the entry loop over the flattened
entry tree starting from an empty staging directory, then unwrap the
recorded basename (`expect("basename should be determined")` — a panic when
no entry equalled the base). -/
def Template.generate (t : Template) (values : Ctx) : POut GenError (StagedFs × String) :=
  match generateGo t.root t.baseRel t.metadata.copy t.env values
      t.entriesList (StagedFs.mk [] [""]) none with
  | .ok (st, some basename) => .ok (st, basename)
  | .ok (_, none) => .panicked "basename should be determined"
  | .err e => .err e
  | .panicked m => .panicked m

/- ---------- copy_dir_all (src/copy.rs, lines 7-52) ---------- -/

/-- The destination filesystem: files (paths to bytes) and directories. -/
structure DstFs where
  files : List (List String × List Nat)
  dirs : List (List String)

/-- Does anything exist at this destination path (`to.exists()`)? -/
def DstFs.existsAt (fs : DstFs) (p : List String) : Bool :=
  (fs.files.lookup p).isSome || fs.dirs.contains p

/-- Replace or append a destination file. -/
def dstSetFile : List (List String × List Nat) → List String → List Nat →
    List (List String × List Nat)
  | [], p, content => [(p, content)]
  | (p₀, c₀) :: rest, p, content =>
    if p₀ = p then (p₀, content) :: rest
    else (p₀, c₀) :: dstSetFile rest p content

/-- Model of `fs::create_dir_all` at the destination (idempotent, creating
missing ancestors). -/
def dstMkdirAll (fs : DstFs) (p : List String) : DstFs :=
  let ancestors := (List.range (p.length + 1)).map (fun k => p.take k)
  { fs with dirs := fs.dirs ++ ancestors.filter (fun d => !(fs.dirs.contains d)) }

/-- The entry loop of `copy_dir_all`: recurse into directories (the nested
`copy_dir_all` call — create the subdirectory, then loop over its entries),
and for each file decide the counter — created when absent, overwritten when
`force` or the resolver accepts, skipped otherwise — and then UNCONDITIONALLY
run `fs::copy` (the copy sits after the counter `if`, outside of it, in the
source). -/
def copyEntries (resolver : List String → Bool) (force : Bool)
    (dstroot : List String) : FsForest → List String → DstFs → DstFs × Nat × Nat × Nat
  | .nil, _, fs => (fs, 0, 0, 0)
  | .cons name (.dir children) rest, dst, fs =>
    let dest := dst ++ [name]
    let r₁ := copyEntries resolver force dstroot children dest (dstMkdirAll fs dest)
    let r₂ := copyEntries resolver force dstroot rest dst r₁.1
    (r₂.1, r₁.2.1 + r₂.2.1, r₁.2.2.1 + r₂.2.2.1, r₁.2.2.2 + r₂.2.2.2)
  | .cons name (.file content) rest, dst, fs =>
    let dest := dst ++ [name]
    let counts : Nat × Nat × Nat :=
      if fs.existsAt dest then
        if force || resolver (dest.drop dstroot.length) then (0, 1, 0) else (0, 0, 1)
      else (1, 0, 0)
    let fs := { fs with files := dstSetFile fs.files dest content }
    let r₂ := copyEntries resolver force dstroot rest dst fs
    (r₂.1, counts.1 + r₂.2.1, counts.2.1 + r₂.2.2.1, counts.2.2 + r₂.2.2.2)

/-- Direct translation of `copy_dir_all` (src/copy.rs): create the
destination directory, then fold over the source entries.  `resolver` stands
for the injected per-file `prompt::confirm` call and receives the path shown
in the prompt (`to` stripped of `dstroot`).  Returns the new destination
state and the `(creates, overwrites, skips)` counters. -/
def copy_dir_all (resolver : List String → Bool) (force : Bool)
    (dstroot : List String) (src : FsForest) (dst : List String) (fs : DstFs) :
    DstFs × Nat × Nat × Nat :=
  copyEntries resolver force dstroot src dst (dstMkdirAll fs dst)

/- ====================================================================
   Theorems
   ==================================================================== -/

/- ---------- helper lemmas: contexts and resolution ---------- -/

theorem mem_ctxDom_insert (m : Ctx) (k : String) (v : Value) (x : String) :
    x ∈ ctxDom (ctxInsert m k v) ↔ x ∈ ctxDom m ∨ x = k := by
  induction m with
  | nil => simp [ctxInsert, ctxDom]
  | cons hd tl ih =>
    obtain ⟨k₀, v₀⟩ := hd
    by_cases h : k₀ = k
    · subst h
      simp [ctxInsert, ctxDom]
      tauto
    · simp only [ctxInsert, if_neg h, ctxDom, List.map_cons, List.mem_cons]
      rw [ctxDom] at ih
      rw [ih]
      tauto

theorem ctxLookup_eq_none (m : Ctx) (x : String) (h : x ∉ ctxDom m) :
    ctxLookup m x = none := by
  induction m with
  | nil => rfl
  | cons hd tl ih =>
    obtain ⟨k₀, v₀⟩ := hd
    simp only [ctxDom, List.map_cons, List.mem_cons, not_or] at h
    have hne : (x == k₀) = false := beq_eq_false_iff_ne.mpr h.1
    simp only [ctxLookup, List.lookup, hne]
    exact ih h.2

theorem ctxDom_resolveStep (provider : String → Variable → Value) (values : Ctx)
    (nv : String × Variable) (x : String)
    (h : x ∈ ctxDom (resolveStep provider values nv)) :
    x ∈ ctxDom values ∨ x = nv.1 := by
  rcases hc : nv.2.condition with _ | cond
  · simp only [resolveStep, hc] at h
    exact (mem_ctxDom_insert _ _ _ _).1 h
  · simp only [resolveStep, hc] at h
    by_cases ht : (evalCExpr cond values).is_true = true
    · rw [if_pos ht] at h
      exact (mem_ctxDom_insert _ _ _ _).1 h
    · rw [if_neg ht] at h
      exact Or.inl h

theorem ctxDom_resolveVariables (provider : String → Variable → Value)
    (l : List (String × Variable)) (init : Ctx) (x : String)
    (h : x ∈ ctxDom (resolveVariables provider l init)) :
    x ∈ ctxDom init ∨ x ∈ l.map Prod.fst := by
  induction l generalizing init with
  | nil => exact Or.inl h
  | cons nv tl ih =>
    rw [resolveVariables, List.foldl_cons] at h
    rcases ih (resolveStep provider init nv) h with h₂ | h₂
    · rcases ctxDom_resolveStep provider init nv x h₂ with h₃ | h₃
      · exact Or.inl h₃
      · exact Or.inr (by simp [h₃])
    · exact Or.inr (by simp [h₂])

theorem resolveVariables_append (provider : String → Variable → Value)
    (l₁ l₂ : List (String × Variable)) (init : Ctx) :
    resolveVariables provider (l₁ ++ l₂) init
      = resolveVariables provider l₂ (resolveVariables provider l₁ init) := by
  simp [resolveVariables, List.foldl_append]

/- ---------- C1 ---------- -/

/-- The staged tree of the C1 scenario: a single file `f.txt` with bytes
`[104, 105]`. -/
def c1src : FsForest := .cons "f.txt" (.file [104, 105]) .nil

/-- The destination of the C1 scenario: `f.txt` already exists with bytes
`[111]`. -/
def c1dst : DstFs := DstFs.mk [(["f.txt"], [111])] [[]]

/-- C1: the claim says a file whose conflict resolver declines is counted
"skipped" and its destination bytes are left unchanged.  The code counts it
as skipped but the `fs::copy` call sits after (outside) the counting `if`,
so it runs unconditionally: with `force = false` and an always-declining
resolver the run reports `(created, overwritten, skipped) = (0, 0, 1)` yet
the destination file's bytes become the staged bytes `[104, 105]`, not the
original `[111]`. -/
theorem c1_skip_still_overwrites :
    copy_dir_all (fun _ => false) false [] c1src [] c1dst
        = (DstFs.mk [(["f.txt"], [104, 105])] [[]], 0, 0, 1)
      ∧ [(["f.txt"], ([104, 105] : List Nat))] ≠ [(["f.txt"], [111])] :=
  ⟨rfl, by decide⟩

/- ---------- C3 ---------- -/

/-- The declaration `String{default:"123", pattern:"^[a-z]+$"}`. -/
def c3decl123 : Variable :=
  Variable.mk (.scalar (.str "123")) "p" none none (some (RegexP.mk "^[a-z]+$")) none

/-- C3 counterexample: the claim says `String{default:"123",
pattern:"^[a-z]+$"}` is rejected with a pattern-mismatch cause, but
`Variable::validate` never tests the default against the pattern — it only
checks that a pattern is attached to a string-typed default — so validation
succeeds. -/
theorem c3_counterexample : c3decl123.validate = .ok c3decl123 := rfl

/-- C3 amended: for a String declaration with a pattern (and no choices and
no range), validation always succeeds, whether or not the default matches
the pattern; in particular both `default:"foo"` and `default:"123"` with
pattern `^[a-z]+$` validate. -/
theorem c3_pattern_never_checked (s psrc pr : String) (cond : Option CExpr) :
    (Variable.mk (.scalar (.str s)) pr none none (some (RegexP.mk psrc)) cond).validate
      = .ok (Variable.mk (.scalar (.str s)) pr none none (some (RegexP.mk psrc)) cond) := rfl

/- ---------- helper lemmas: Except bind and loadVariables ---------- -/

theorem except_bind_ok {ε α β : Type} (x : Except ε α) (f : α → Except ε β) (b : β)
    (h : x.bind f = .ok b) : ∃ a, x = .ok a ∧ f a = .ok b := by
  cases x with
  | error e => simp [Except.bind] at h
  | ok a => exact ⟨a, rfl, by simpa [Except.bind] using h⟩

theorem loadVariables_cons_skip (name : String) (v : Toml) (tl : List (String × Toml))
    (hm : isMetaKey name = true) :
    loadVariables ((name, v) :: tl) = loadVariables tl := by
  simp [loadVariables, hm]

theorem loadVariables_cons_ok (name : String) (v : Toml) (tl : List (String × Toml))
    (vs : List (String × Variable)) (hm : isMetaKey name = false)
    (h : loadVariables ((name, v) :: tl) = .ok vs) :
    ∃ pv vr tail, parseVariable v = .ok pv ∧ pv.validate = .ok vr
      ∧ loadVariables tl = .ok tail ∧ vs = (name, vr) :: tail := by
  rw [loadVariables] at h
  rw [if_neg (by simp [hm])] at h
  obtain ⟨pv, hp, h⟩ := except_bind_ok _ _ _ h
  obtain ⟨vr, hv, h⟩ := except_bind_ok _ _ _ h
  obtain ⟨tail, htail, h⟩ := except_bind_ok _ _ _ h
  refine ⟨pv, vr, tail, hp, ?_, htail, ?_⟩
  · rcases hval : pv.validate with e | w <;> rw [hval] at hv
    · simp at hv
    · cases hv
      rfl
  · cases h
    rfl

theorem loadVariables_names (table : List (String × Toml)) (vs : List (String × Variable))
    (h : loadVariables table = .ok vs) :
    vs.map Prod.fst = (table.filter (fun kv => !(isMetaKey kv.1))).map Prod.fst := by
  induction table generalizing vs with
  | nil =>
    cases h
    rfl
  | cons hd tl ih =>
    obtain ⟨name, v⟩ := hd
    by_cases hm : isMetaKey name
    · rw [loadVariables_cons_skip name v tl hm] at h
      rw [ih vs h]
      simp [List.filter_cons, hm]
    · obtain ⟨pv, vr, tail, hp, hval, htail, hvs⟩ :=
        loadVariables_cons_ok name v tl vs (by simpa using hm) h
      subst hvs
      rw [List.filter_cons]
      simp only [Bool.not_eq_true] at hm
      simp [hm, ih tail htail]

theorem parseConditionField_compiled (kvs : List (String × TomlField))
    (cond : Option CExpr) (h : parseConditionField kvs = .ok cond) (s : String)
    (hf : fieldLookup kvs "condition" = some (.scalar (.str s))) :
    ∃ e, compileExpr s = some e ∧ cond = some e := by
  simp only [parseConditionField, hf] at h
  rcases hc : compileExpr s with _ | e <;> rw [hc] at h
  · simp at h
  · cases h
    exact ⟨e, rfl, rfl⟩

theorem parseVariable_condition_compiled (kvs : List (String × TomlField)) (vr : Variable)
    (h : parseVariable (.table kvs) = .ok vr) (s : String)
    (hf : fieldLookup kvs "condition" = some (.scalar (.str s))) :
    ∃ e, compileExpr s = some e ∧ vr.condition = some e := by
  rw [parseVariable] at h
  split at h
  · simp at h
  · obtain ⟨d, hd, h⟩ := except_bind_ok _ _ _ h
    obtain ⟨p, hp, h⟩ := except_bind_ok _ _ _ h
    obtain ⟨cs, hcs, h⟩ := except_bind_ok _ _ _ h
    obtain ⟨r, hr, h⟩ := except_bind_ok _ _ _ h
    obtain ⟨pat, hpat, h⟩ := except_bind_ok _ _ _ h
    obtain ⟨cond, hcond, h⟩ := except_bind_ok _ _ _ h
    obtain ⟨e, he, hce⟩ := parseConditionField_compiled kvs cond hcond s hf
    cases h
    exact ⟨e, he, by rw [hce]⟩

/- ---------- C9 ---------- -/

/-- C9: for every variable declaration kept by a successful load, its
condition string (when present) compiled: `Condition::try_from` runs inside
the serde deserialization that `Template::load` performs, so a malformed
condition makes `loadVariables` — and with it `Template::load` — fail, and
generation (a function of the loaded template) never starts.  Resolution
consumes only the stored compiled expression, so no compile error can first
surface at resolution time. -/
theorem c9_condition_compiled_at_load (table : List (String × Toml))
    (vs : List (String × Variable)) (hload : loadVariables table = .ok vs) :
    ∀ n v, (n, v) ∈ table → isMetaKey n = false →
    ∀ kvs s, v = .table kvs →
      fieldLookup kvs "condition" = some (.scalar (.str s)) →
      (compileExpr s).isSome := by
  induction table generalizing vs with
  | nil =>
    intro n v hmem
    simp at hmem
  | cons hd tl ih =>
    obtain ⟨name, w⟩ := hd
    intro n v hmem hn kvs s hv hf
    rcases List.mem_cons.1 hmem with heq | hmem₂
    · obtain ⟨h1, h2⟩ := Prod.mk.injEq .. ▸ heq
      subst h1
      subst h2
      by_cases hm : isMetaKey n
      · rw [hm] at hn
        cases hn
      · obtain ⟨pv, vr, tail, hp, hval, htail, hvs⟩ :=
          loadVariables_cons_ok n v tl vs (by simpa using hm) hload
        subst hv
        obtain ⟨e, he, _⟩ := parseVariable_condition_compiled kvs pv hp s hf
        simp [he]
    · by_cases hm : isMetaKey name
      · rw [loadVariables_cons_skip name w tl hm] at hload
        exact ih vs hload n v hmem₂ hn kvs s hv hf
      · obtain ⟨pv, vr, tail, hp, hval, htail, hvs⟩ :=
          loadVariables_cons_ok name w tl vs (by simpa using hm) hload
        exact ih tail htail n v hmem₂ hn kvs s hv hf

/-- A concrete declaration table whose one variable carries the condition
string `a == true`. -/
def c9table : List (String × Toml) :=
  [("x", .table [("default", .scalar (.str "")), ("prompt", .scalar (.str "p")),
    ("condition", .scalar (.str "a == true"))])]

/-- The variables that loading `c9table` produces. -/
def c9vars : List (String × Variable) :=
  [("x", Variable.mk (.scalar (.str "")) "p" none none none
    (some (.eq (.ident "a") (.litBool true))))]

theorem c9_witness :
    loadVariables c9table = .ok c9vars ∧ (compileExpr "a == true").isSome :=
  ⟨rfl,
    c9_condition_compiled_at_load c9table c9vars rfl "x"
      (.table [("default", .scalar (.str "")), ("prompt", .scalar (.str "p")),
        ("condition", .scalar (.str "a == true"))])
      (List.mem_singleton.mpr rfl) rfl _ "a == true" rfl rfl⟩

/- ---------- C5 ---------- -/

/-- C5: a successful load keeps exactly the non-metadata top-level keys, in
source order, as the variable list (first conjunct); and that list order is
the evaluation-visibility order: splitting the list anywhere, resolution
processes the prefix first, evaluates the split variable's condition against
the context produced by the prefix alone (`resolveStep` receives
`resolveVariables provider l₁ init`), and that context's domain contains
only injected keys and earlier-declared names (second conjunct).  Prompt
order is the same fold order. -/
theorem c5_declaration_order (table : List (String × Toml)) (vs : List (String × Variable))
    (h : loadVariables table = .ok vs) :
    vs.map Prod.fst = (table.filter (fun kv => !(isMetaKey kv.1))).map Prod.fst
    ∧ ∀ (provider : String → Variable → Value) (init : Ctx) l₁ nv l₂,
        vs = l₁ ++ nv :: l₂ →
        resolveVariables provider vs init
          = resolveVariables provider l₂
              (resolveStep provider (resolveVariables provider l₁ init) nv)
        ∧ ∀ x, x ∈ ctxDom (resolveVariables provider l₁ init) →
            x ∈ ctxDom init ∨ x ∈ l₁.map Prod.fst := by
  refine ⟨loadVariables_names table vs h, ?_⟩
  intro provider init l₁ nv l₂ hsplit
  constructor
  · rw [hsplit, resolveVariables_append]
    rfl
  · intro x hx
    exact ctxDom_resolveVariables provider l₁ init x hx

/-- A concrete two-declaration table (with a metadata key interleaved). -/
def c5table : List (String × Toml) :=
  [("__name__", .scalar (.str "t")),
   ("b_second", .table [("default", .scalar (.str "")), ("prompt", .scalar (.str "p"))]),
   ("a_first", .table [("default", .scalar (.bool true)), ("prompt", .scalar (.str "q"))])]

/-- The variables that loading `c5table` produces: declaration order
(`b_second` before `a_first`), not alphabetical order. -/
def c5vars : List (String × Variable) :=
  [("b_second", Variable.mk (.scalar (.str "")) "p" none none none none),
   ("a_first", Variable.mk (.scalar (.bool true)) "q" none none none none)]

theorem c5_witness :
    loadVariables c5table = .ok c5vars
    ∧ c5vars.map Prod.fst = (c5table.filter (fun kv => !(isMetaKey kv.1))).map Prod.fst :=
  ⟨rfl, (c5_declaration_order c5table c5vars rfl).1⟩

/- ---------- C6 ---------- -/

/-- C6: a variable whose condition evaluates false at its turn is skipped
entirely: provided its name is not an injected key and not declared
elsewhere, the name is absent from the final context (not defaulted, not a
null placeholder), and a later condition referencing it sees the undefined
value. -/
theorem c6_false_condition_skips
    (provider : String → Variable → Value) (init : Ctx)
    (l₁ l₂ : List (String × Variable)) (n : String) (v : Variable) (c : CExpr)
    (hcond : v.condition = some c)
    (hn₀ : n ∉ ctxDom init) (hn₁ : n ∉ l₁.map Prod.fst) (hn₂ : n ∉ l₂.map Prod.fst)
    (hfalse : (evalCExpr c (resolveVariables provider l₁ init)).is_true = false) :
    n ∉ ctxDom (resolveVariables provider (l₁ ++ (n, v) :: l₂) init)
    ∧ evalCExpr (.ident n) (resolveVariables provider (l₁ ++ (n, v) :: l₂) init)
        = .vUndefined := by
  have hstep : resolveStep provider (resolveVariables provider l₁ init) (n, v)
      = resolveVariables provider l₁ init := by
    simp [resolveStep, hcond, hfalse]
  have heq : resolveVariables provider (l₁ ++ (n, v) :: l₂) init
      = resolveVariables provider l₂ (resolveVariables provider l₁ init) := by
    rw [resolveVariables_append]
    show resolveVariables provider l₂
        (resolveStep provider (resolveVariables provider l₁ init) (n, v)) = _
    rw [hstep]
  have hnotin :
      n ∉ ctxDom (resolveVariables provider l₂ (resolveVariables provider l₁ init)) := by
    intro hmem
    rcases ctxDom_resolveVariables provider l₂ _ n hmem with h₂ | h₂
    · rcases ctxDom_resolveVariables provider l₁ init n h₂ with h₃ | h₃
      · exact hn₀ h₃
      · exact hn₁ h₃
    · exact hn₂ h₂
  refine ⟨heq ▸ hnotin, ?_⟩
  rw [heq]
  simp [evalCExpr, ctxLookup_eq_none _ _ hnotin]

/-- The variable `a` of the C6 scenario (no condition). -/
def c6varA : Variable := Variable.mk (.scalar (.bool false)) "a?" none none none none

/-- The compiled condition `a == true` of the C6 scenario. -/
def c6cond : CExpr := .eq (.ident "a") (.litBool true)

/-- The variable `b` of the C6 scenario, gated by `a == true`. -/
def c6varB : Variable := Variable.mk (.scalar (.str "")) "b?" none none none (some c6cond)

/-- The C6 input provider: resolves `a` to `false`. -/
def c6provider : String → Variable → Value := fun name _ =>
  if name = "a" then .vBool false else .vUndefined

theorem c6_witness :
    (evalCExpr c6cond (resolveVariables c6provider [("a", c6varA)] [])).is_true = false
    ∧ "b" ∉ ctxDom (resolveVariables c6provider [("a", c6varA), ("b", c6varB)] []) :=
  ⟨rfl,
    (c6_false_condition_skips c6provider [] [("a", c6varA)] [] "b" c6varB c6cond rfl
      (by simp [ctxDom]) (by simp [c6varA]) (by simp) rfl).1⟩

/- ---------- C4 ---------- -/

/-- C4 counterexample: the claim says `render_path` fails with an error on a
path referencing a variable absent from the context.  With the environment
the source builds (`Environment::new()`, lenient undefined behaviour) the
undefined reference renders as the empty string instead: the path
`\x7b\x7b missing \x7d\x7d.txt` rendered against the empty context succeeds
and yields ".txt". -/
theorem c4_counterexample :
    render_path ["\x7b\x7b missing \x7d\x7d.txt"] [] = .ok ".txt" := rfl

/- ---------- C2 ---------- -/

/-- The C2 template tree: one binary file (`bin.dat`, bytes `[0, 65]`,
containing a NUL byte) at the template root. -/
def c2tree : FsTree := .dir (.cons "bin.dat" (.file [0, 65]) .nil)

/-- Metadata with base = template root and empty copy/exclude sets. -/
def c2meta : Metadata := Metadata.mk "t" "a" none none [] [] []

/-- The template root `/t`. -/
def c2root : List String := ["", "t"]

/-- A junk template used as the fallback of the `c2tmpl` extractor. -/
def fallbackTemplate : Template := Template.mk [] [] c2meta [] [] []

/-- The template that loading the C2 tree produces. -/
def c2tmpl : Template :=
  match loadTemplate c2root c2meta [] c2tree with
  | .ok t => t
  | _ => fallbackTemplate

/-- C2: the claim says a binary file's root-relative path joins the copy set
and any entry matching the copy set is copied byte-for-byte (and every other
surviving file is rendered as a registered template).  Loading does add the
relative pattern `bin.dat` to the copy set, and that pattern matches the
file's root-relative path; but `Template::generate` tests the copy patterns
against `entry.path()` — the ABSOLUTE path `/t/bin.dat` — which the relative
pattern does not match, so the binary file is dispatched to template
rendering, and since binary files are never registered as templates,
generation aborts with a template-not-found error instead of copying the
bytes. -/
theorem c2_binary_file_not_copied :
    loadTemplate c2root c2meta [] c2tree = .ok c2tmpl
    ∧ is_binary_buf [0, 65] = true
    ∧ matchesPathAny c2tmpl.metadata.copy ["bin.dat"] = true
    ∧ matchesPathAny c2tmpl.metadata.copy (c2root ++ ["bin.dat"]) = false
    ∧ c2tmpl.generate [] = .err (.templateNotFound "bin.dat") :=
  ⟨rfl, rfl, rfl, rfl, rfl⟩

/- ---------- C10 ---------- -/

/-- The panic message of an unwrapped `PatternError`. -/
def unwrapMsg : String := "called Result::unwrap on an Err value: PatternError"

theorem initGo_cons_excluded (exclude : List GlobPattern) (rel : List String)
    (node : FsTree) (l : List WEntry) (st : InitState)
    (h : matchesPathAny exclude rel = true) :
    initGo exclude ((rel, node) :: l) st = initGo exclude l st := by
  simp [initGo, h]

theorem initGo_cons_dir (exclude : List GlobPattern) (rel : List String)
    (ch : FsForest) (l : List WEntry) (st : InitState)
    (h : matchesPathAny exclude rel = false) :
    initGo exclude ((rel, .dir ch) :: l) st
      = initGo exclude l
          { st with entries := btreeInsert st.entries rel.length (rel, .dir ch) } := by
  simp [initGo, h]

theorem initGo_cons_binary_bad (exclude : List GlobPattern) (rel : List String)
    (buf : List Nat) (l : List WEntry) (st : InitState)
    (hexc : matchesPathAny exclude rel = false)
    (hbin : is_binary_buf buf = true)
    (hpat : GlobPattern.new (path_to_string rel) = none) :
    initGo exclude ((rel, .file buf) :: l) st = .panicked unwrapMsg := by
  simp [initGo, hexc, hbin, hpat, unwrapMsg]

/-- C10: if the walk reaches a surviving binary file whose root-relative
path is not a valid glob pattern (after any earlier entries that are
directories or excluded), `Template::init` panics through the unchecked
`unwrap` on `Pattern::new` instead of returning an error value. -/
theorem c10_invalid_glob_panics (exclude : List GlobPattern) (pre rest : List WEntry)
    (rel : List String) (buf : List Nat) (st : InitState)
    (hpre : ∀ e ∈ pre, e.2.isFile = false ∨ matchesPathAny exclude e.1 = true)
    (hexc : matchesPathAny exclude rel = false)
    (hbin : is_binary_buf buf = true)
    (hpat : GlobPattern.new (path_to_string rel) = none) :
    initGo exclude (pre ++ (rel, .file buf) :: rest) st = .panicked unwrapMsg := by
  induction pre generalizing st with
  | nil =>
    rw [List.nil_append]
    exact initGo_cons_binary_bad exclude rel buf rest st hexc hbin hpat
  | cons e pre ih =>
    obtain ⟨erel, enode⟩ := e
    have hpre₂ : ∀ x ∈ pre, x.2.isFile = false ∨ matchesPathAny exclude x.1 = true :=
      fun x hx => hpre x (List.mem_cons_of_mem _ hx)
    by_cases hx : matchesPathAny exclude erel = true
    · rw [List.cons_append, initGo_cons_excluded exclude erel enode _ st hx]
      exact ih st hpre₂
    · rcases hpre (erel, enode) (List.mem_cons_self _ _) with hdir | hexcl
      · cases enode with
        | file b => simp [FsTree.isFile] at hdir
        | dir ch =>
          rw [List.cons_append,
            initGo_cons_dir exclude erel ch _ st (Bool.not_eq_true _ ▸ hx)]
          exact ih _ hpre₂
      · exact absurd hexcl hx

/-- The C10 tree: one binary file whose name `x[.bin` has an unclosed
character class, making it an invalid glob pattern. -/
def c10tree : FsTree := .dir (.cons "x[.bin" (.file [0]) .nil)

theorem c10_witness :
    is_binary_buf [0] = true
    ∧ GlobPattern.new (path_to_string ["x[.bin"]) = none
    ∧ matchesPathAny [] ["x[.bin"] = false
    ∧ initGo [] (walkTree [] c10tree) (InitState.mk [] [] []) = .panicked unwrapMsg
    ∧ loadTemplate c2root c2meta [] c10tree = .panicked unwrapMsg :=
  ⟨rfl, rfl, rfl,
    c10_invalid_glob_panics [] [([], c10tree)] [] ["x[.bin"] [0] (InitState.mk [] [] [])
      (by
        intro e he
        rw [List.mem_singleton] at he
        subst he
        exact Or.inl rfl)
      rfl rfl rfl,
    rfl⟩

/- ---------- helper lemmas: the depth-keyed entry store ---------- -/

/-- Does an entry survive exclusion? -/
def survives (exclude : List GlobPattern) (e : WEntry) : Bool :=
  !(matchesPathAny exclude e.1)

/-- The pure fold that mirrors the entry insertions of `Template::init`. -/
def entriesFold (l : List WEntry) (m : EntryMap) : EntryMap :=
  l.foldl (fun m e => btreeInsert m e.1.length e) m

/-- Well-formedness of the entry store: strictly ascending depth keys, and
every entry sits in the bucket of its own depth. -/
def bucketsOk (m : EntryMap) : Prop :=
  List.Pairwise (fun a b => a.1 < b.1) m ∧ ∀ p ∈ m, ∀ e ∈ p.2, e.1.length = p.1

theorem bucketsOk_nil : bucketsOk [] :=
  ⟨List.Pairwise.nil, fun p hp => absurd hp (List.not_mem_nil p)⟩

theorem btreeInsert_key_mem (m : EntryMap) (k : Nat) (e : WEntry) :
    ∀ p ∈ btreeInsert m k e, p.1 = k ∨ p ∈ m := by
  induction m with
  | nil =>
    intro p hp
    simp only [btreeInsert, List.mem_singleton] at hp
    subst hp
    exact Or.inl rfl
  | cons hd tl ih =>
    obtain ⟨k₀, es⟩ := hd
    intro p hp
    by_cases h₁ : k < k₀
    · simp only [btreeInsert, if_pos h₁, List.mem_cons] at hp
      rcases hp with h | h | h
      · subst h
        exact Or.inl rfl
      · exact Or.inr (by simp [h])
      · exact Or.inr (by simp [h])
    · by_cases h₂ : k = k₀
      · simp only [btreeInsert, if_neg h₁, if_pos h₂, List.mem_cons] at hp
        rcases hp with h | h
        · subst h
          exact Or.inl h₂.symm
        · exact Or.inr (by simp [h])
      · simp only [btreeInsert, if_neg h₁, if_neg h₂, List.mem_cons] at hp
        rcases hp with h | h
        · exact Or.inr (by simp [h])
        · rcases ih p h with h₃ | h₃
          · exact Or.inl h₃
          · exact Or.inr (by simp [h₃])

theorem bucketsOk_btreeInsert (m : EntryMap) (k : Nat) (e : WEntry)
    (h : bucketsOk m) (he : e.1.length = k) : bucketsOk (btreeInsert m k e) := by
  induction m with
  | nil =>
    refine ⟨by simp [btreeInsert], ?_⟩
    intro p hp x hx
    simp only [btreeInsert, List.mem_singleton] at hp
    subst hp
    simp only [List.mem_singleton] at hx
    subst hx
    exact he
  | cons hd tl ih =>
    obtain ⟨k₀, es⟩ := hd
    obtain ⟨hpair, hunif⟩ := h
    have hpairtl := List.Pairwise.sublist (List.sublist_cons_self _ _) hpair
    have huniftl : ∀ p ∈ tl, ∀ x ∈ p.2, x.1.length = p.1 :=
      fun p hp => hunif p (List.mem_cons_of_mem _ hp)
    by_cases h₁ : k < k₀
    · refine ⟨?_, ?_⟩
      · simp only [btreeInsert, if_pos h₁]
        refine List.Pairwise.cons ?_ hpair
        intro p hp
        rcases List.mem_cons.1 hp with hh | hh
        · subst hh
          exact h₁
        · have := (List.pairwise_cons.1 hpair).1 p hh
          exact h₁.trans this
      · intro p hp x hx
        simp only [btreeInsert, if_pos h₁, List.mem_cons] at hp
        rcases hp with hh | hh | hh
        · subst hh
          simp only [List.mem_singleton] at hx
          subst hx
          exact he
        · subst hh
          exact hunif (k₀, es) (List.mem_cons_self _ _) x hx
        · exact hunif p (List.mem_cons_of_mem _ hh) x hx
    · by_cases h₂ : k = k₀
      · refine ⟨?_, ?_⟩
        · simp only [btreeInsert, if_neg h₁, if_pos h₂]
          refine List.Pairwise.cons ?_ hpairtl
          exact fun p hp => (List.pairwise_cons.1 hpair).1 p hp
        · intro p hp x hx
          simp only [btreeInsert, if_neg h₁, if_pos h₂, List.mem_cons] at hp
          rcases hp with hh | hh
          · subst hh
            rcases List.mem_append.1 hx with hx₂ | hx₂
            · exact hunif (k₀, es) (List.mem_cons_self _ _) x hx₂
            · simp only [List.mem_singleton] at hx₂
              subst hx₂
              simpa [h₂] using he
          · exact hunif p (List.mem_cons_of_mem _ hh) x hx
      · obtain ⟨ihpair, ihunif⟩ := ih ⟨hpairtl, huniftl⟩
        refine ⟨?_, ?_⟩
        · simp only [btreeInsert, if_neg h₁, if_neg h₂]
          refine List.Pairwise.cons ?_ ihpair
          intro p hp
          rcases btreeInsert_key_mem tl k e p hp with hh | hh
          · subst hh
            omega
          · exact (List.pairwise_cons.1 hpair).1 p hh
        · intro p hp x hx
          simp only [btreeInsert, if_neg h₁, if_neg h₂, List.mem_cons] at hp
          rcases hp with hh | hh
          · subst hh
            exact hunif (k₀, es) (List.mem_cons_self _ _) x hx
          · exact ihunif p hh x hx

theorem mem_flatten_btreeInsert (m : EntryMap) (k : Nat) (e : WEntry) (x : WEntry) :
    x ∈ entryMapFlatten (btreeInsert m k e) ↔ x ∈ entryMapFlatten m ∨ x = e := by
  induction m with
  | nil => simp [btreeInsert, entryMapFlatten]
  | cons hd tl ih =>
    obtain ⟨k₀, es⟩ := hd
    by_cases h₁ : k < k₀
    · simp only [btreeInsert, if_pos h₁, entryMapFlatten, List.flatMap_cons,
        List.mem_append, List.mem_singleton]
      simp only [entryMapFlatten] at *
      tauto
    · by_cases h₂ : k = k₀
      · simp only [btreeInsert, if_neg h₁, if_pos h₂, entryMapFlatten, List.flatMap_cons,
          List.mem_append, List.mem_singleton]
        simp only [entryMapFlatten] at *
        tauto
      · simp only [btreeInsert, if_neg h₁, if_neg h₂, entryMapFlatten, List.flatMap_cons,
          List.mem_append]
        simp only [entryMapFlatten] at ih
        tauto

theorem flatten_filter_small (m : EntryMap) (d : Nat)
    (hunif : ∀ p ∈ m, ∀ e ∈ p.2, e.1.length = p.1) (hd : ∀ p ∈ m, d < p.1) :
    (entryMapFlatten m).filter (fun x => x.1.length == d) = [] := by
  rw [List.filter_eq_nil_iff]
  intro x hx
  rw [entryMapFlatten, List.mem_flatMap] at hx
  obtain ⟨p, hp, hxp⟩ := hx
  have h₁ := hunif p hp x hxp
  have h₂ := hd p hp
  simp only [beq_iff_eq]
  omega

theorem flatten_filter_btreeInsert (m : EntryMap) (k : Nat) (e : WEntry) (d : Nat)
    (h : bucketsOk m) (he : e.1.length = k) :
    (entryMapFlatten (btreeInsert m k e)).filter (fun x => x.1.length == d)
      = (entryMapFlatten m).filter (fun x => x.1.length == d)
        ++ if k = d then [e] else [] := by
  induction m with
  | nil =>
    simp only [btreeInsert, entryMapFlatten, List.flatMap_cons, List.flatMap_nil,
      List.append_nil, List.nil_append]
    by_cases hk : k = d
    · simp [List.filter, he, hk]
    · have hf : (e.1.length == d) = false := by
        simp only [beq_eq_false_iff_ne]
        omega
      simp [List.filter, hf, hk]
  | cons hd tl ih =>
    obtain ⟨k₀, es⟩ := hd
    obtain ⟨hpair, hunif⟩ := h
    have hpairtl := List.Pairwise.sublist (List.sublist_cons_self _ _) hpair
    have huniftl : ∀ p ∈ tl, ∀ x ∈ p.2, x.1.length = p.1 :=
      fun p hp => hunif p (List.mem_cons_of_mem _ hp)
    by_cases h₁ : k < k₀
    · simp only [btreeInsert, if_pos h₁, entryMapFlatten, List.flatMap_cons,
        List.filter_append]
      by_cases hk : k = d
      · subst hk
        have hes : List.filter (fun x : WEntry => x.1.length == k) es = [] := by
          rw [List.filter_eq_nil_iff]
          intro x hx
          have := hunif (k₀, es) (List.mem_cons_self _ _) x hx
          simp only [beq_iff_eq]
          omega
        have htl : List.filter (fun x : WEntry => x.1.length == k)
            (tl.flatMap Prod.snd) = [] := by
          rw [List.filter_eq_nil_iff]
          intro x hx
          rw [List.mem_flatMap] at hx
          obtain ⟨p, hp, hxp⟩ := hx
          have h₂ := huniftl p hp x hxp
          have h₃ := h₁.trans ((List.pairwise_cons.1 hpair).1 p hp)
          simp only [beq_iff_eq]
          omega
        simp [List.filter, he, hes, htl]
      · have hf : (e.1.length == d) = false := by
          simp only [beq_eq_false_iff_ne]
          omega
        simp [List.filter, hf, hk]
    · by_cases h₂ : k = k₀
      · subst h₂
        simp only [btreeInsert, if_neg h₁, if_pos rfl, entryMapFlatten,
          List.flatMap_cons, List.filter_append]
        by_cases hk : k = d
        · subst hk
          have htl : List.filter (fun x : WEntry => x.1.length == k)
              (tl.flatMap Prod.snd) = [] := by
            rw [List.filter_eq_nil_iff]
            intro x hx
            rw [List.mem_flatMap] at hx
            obtain ⟨p, hp, hxp⟩ := hx
            have h₂ := huniftl p hp x hxp
            have h₃ := (List.pairwise_cons.1 hpair).1 p hp
            simp only [beq_iff_eq]
            omega
          simp [List.filter, he, htl]
        · have hf : (e.1.length == d) = false := by
            simp only [beq_eq_false_iff_ne]
            omega
          simp [List.filter, hf, hk]
      · have ih₂ := ih ⟨hpairtl, huniftl⟩
        simp only [btreeInsert, if_neg h₁, if_neg h₂, entryMapFlatten,
          List.flatMap_cons, List.filter_append]
        simp only [entryMapFlatten] at ih₂
        rw [ih₂, List.append_assoc]

theorem flatten_pairwise (m : EntryMap) (h : bucketsOk m) :
    List.Pairwise (fun a b : WEntry => a.1.length ≤ b.1.length) (entryMapFlatten m) := by
  induction m with
  | nil => exact List.Pairwise.nil
  | cons hd tl ih =>
    obtain ⟨k₀, es⟩ := hd
    obtain ⟨hpair, hunif⟩ := h
    have hpairtl := List.Pairwise.sublist (List.sublist_cons_self _ _) hpair
    have huniftl : ∀ p ∈ tl, ∀ x ∈ p.2, x.1.length = p.1 :=
      fun p hp => hunif p (List.mem_cons_of_mem _ hp)
    simp only [entryMapFlatten, List.flatMap_cons]
    rw [List.pairwise_append]
    refine ⟨?_, ?_, ?_⟩
    · have hes : ∀ x ∈ es, x.1.length = k₀ := hunif (k₀, es) (List.mem_cons_self _ _)
      exact List.pairwise_of_forall_mem_list (fun a ha b hb => by
        rw [hes a ha, hes b hb])
    · exact ih ⟨hpairtl, huniftl⟩
    · intro a ha b hb
      simp only [entryMapFlatten, List.mem_flatMap] at hb
      obtain ⟨p, hp, hbp⟩ := hb
      have h₁ := hunif (k₀, es) (List.mem_cons_self _ _) a ha
      have h₂ := huniftl p hp b hbp
      have h₃ := (List.pairwise_cons.1 hpair).1 p hp
      omega

theorem bucketsOk_entriesFold (l : List WEntry) (m : EntryMap) (h : bucketsOk m) :
    bucketsOk (entriesFold l m) := by
  induction l generalizing m with
  | nil => exact h
  | cons e l ih => exact ih _ (bucketsOk_btreeInsert m e.1.length e h rfl)

theorem flatten_filter_entriesFold (l : List WEntry) (m : EntryMap) (d : Nat)
    (h : bucketsOk m) :
    (entryMapFlatten (entriesFold l m)).filter (fun x => x.1.length == d)
      = (entryMapFlatten m).filter (fun x => x.1.length == d)
        ++ l.filter (fun x => x.1.length == d) := by
  induction l generalizing m with
  | nil => simp [entriesFold]
  | cons e l ih =>
    rw [entriesFold, List.foldl_cons]
    rw [show List.foldl (fun m e => btreeInsert m e.1.length e)
        (btreeInsert m e.1.length e) l = entriesFold l (btreeInsert m e.1.length e) from rfl]
    rw [ih _ (bucketsOk_btreeInsert m e.1.length e h rfl)]
    rw [flatten_filter_btreeInsert m e.1.length e d h rfl]
    by_cases hk : e.1.length = d
    · simp [List.filter_cons, hk]
    · have : (e.1.length == d) = false := by
        simp only [beq_eq_false_iff_ne]
        omega
      simp [List.filter_cons, this, hk]

theorem mem_flatten_entriesFold (l : List WEntry) (m : EntryMap) (x : WEntry) :
    x ∈ entryMapFlatten (entriesFold l m) ↔ x ∈ entryMapFlatten m ∨ x ∈ l := by
  induction l generalizing m with
  | nil => simp [entriesFold]
  | cons e l ih =>
    rw [entriesFold, List.foldl_cons]
    rw [show List.foldl (fun m e => btreeInsert m e.1.length e)
        (btreeInsert m e.1.length e) l = entriesFold l (btreeInsert m e.1.length e) from rfl]
    rw [ih]
    rw [mem_flatten_btreeInsert]
    simp only [List.mem_cons]
    tauto

/- ---------- helper lemmas: initGo and loadTemplate ---------- -/

theorem initGo_cons_file_binary_ok (exclude : List GlobPattern) (rel : List String)
    (buf : List Nat) (p : GlobPattern) (l : List WEntry) (st : InitState)
    (hexc : matchesPathAny exclude rel = false)
    (hbin : is_binary_buf buf = true)
    (hpat : GlobPattern.new (path_to_string rel) = some p) :
    initGo exclude ((rel, .file buf) :: l) st
      = initGo exclude l
          { st with
            copy := st.copy ++ [p],
            entries := btreeInsert st.entries rel.length (rel, .file buf) } := by
  simp [initGo, hexc, hbin, hpat]

theorem initGo_cons_file_copymatch (exclude : List GlobPattern) (rel : List String)
    (buf : List Nat) (l : List WEntry) (st : InitState)
    (hexc : matchesPathAny exclude rel = false)
    (hbin : is_binary_buf buf = false)
    (hcopy : matchesPathAny st.copy rel = true) :
    initGo exclude ((rel, .file buf) :: l) st
      = initGo exclude l
          { st with entries := btreeInsert st.entries rel.length (rel, .file buf) } := by
  simp [initGo, hexc, hbin, hcopy]

theorem initGo_cons_file_utf8_bad (exclude : List GlobPattern) (rel : List String)
    (buf : List Nat) (l : List WEntry) (st : InitState)
    (hexc : matchesPathAny exclude rel = false)
    (hbin : is_binary_buf buf = false)
    (hcopy : matchesPathAny st.copy rel = false)
    (hdec : utf8Decode buf = none) :
    initGo exclude ((rel, .file buf) :: l) st
      = .panicked "file encoding should be utf-8" := by
  simp [initGo, hexc, hbin, hcopy, hdec]

theorem initGo_cons_file_syntax_bad (exclude : List GlobPattern) (rel : List String)
    (buf : List Nat) (chars : List Char) (l : List WEntry) (st : InitState)
    (hexc : matchesPathAny exclude rel = false)
    (hbin : is_binary_buf buf = false)
    (hcopy : matchesPathAny st.copy rel = false)
    (hdec : utf8Decode buf = some chars)
    (hscan : scanTmpl .lit chars = none) :
    initGo exclude ((rel, .file buf) :: l) st
      = .err (.templateSyntax (path_to_string rel)) := by
  simp [initGo, hexc, hbin, hcopy, hdec, hscan]

theorem initGo_cons_file_tmpl_ok (exclude : List GlobPattern) (rel : List String)
    (buf : List Nat) (chars : List Char) (toks : Tmpl) (l : List WEntry) (st : InitState)
    (hexc : matchesPathAny exclude rel = false)
    (hbin : is_binary_buf buf = false)
    (hcopy : matchesPathAny st.copy rel = false)
    (hdec : utf8Decode buf = some chars)
    (hscan : scanTmpl .lit chars = some toks) :
    initGo exclude ((rel, .file buf) :: l) st
      = initGo exclude l
          { st with
            env := st.env ++ [(path_to_string rel, toks)],
            entries := btreeInsert st.entries rel.length (rel, .file buf) } := by
  simp [initGo, hexc, hbin, hcopy, hdec, hscan]

/-- A surviving entry processed by `initGo` always contributes exactly one
`btreeInsert` of itself at its depth (whatever else the branch does to the
copy set or environment), or the whole run fails. -/
theorem initGo_cons_ok_shape (exclude : List GlobPattern) (rel : List String)
    (node : FsTree) (l : List WEntry) (st st' : InitState)
    (hexc : matchesPathAny exclude rel = false)
    (h : initGo exclude ((rel, node) :: l) st = .ok st') :
    ∃ st₂, initGo exclude l st₂ = .ok st'
      ∧ st₂.entries = btreeInsert st.entries rel.length (rel, node) := by
  cases node with
  | dir ch =>
    rw [initGo_cons_dir exclude rel ch l st hexc] at h
    exact ⟨_, h, rfl⟩
  | file buf =>
    by_cases hbin : is_binary_buf buf = true
    · rcases hpat : GlobPattern.new (path_to_string rel) with _ | p
      · rw [initGo_cons_binary_bad exclude rel buf l st hexc hbin hpat] at h
        cases h
      · rw [initGo_cons_file_binary_ok exclude rel buf p l st hexc hbin hpat] at h
        exact ⟨_, h, rfl⟩
    · have hbin₂ : is_binary_buf buf = false := by
        simpa using hbin
      by_cases hcopy : matchesPathAny st.copy rel = true
      · rw [initGo_cons_file_copymatch exclude rel buf l st hexc hbin₂ hcopy] at h
        exact ⟨_, h, rfl⟩
      · have hcopy₂ : matchesPathAny st.copy rel = false := by
          simpa using hcopy
        rcases hdec : utf8Decode buf with _ | chars
        · rw [initGo_cons_file_utf8_bad exclude rel buf l st hexc hbin₂ hcopy₂ hdec] at h
          cases h
        · rcases hscan : scanTmpl .lit chars with _ | toks
          · rw [initGo_cons_file_syntax_bad exclude rel buf chars l st hexc hbin₂ hcopy₂
              hdec hscan] at h
            cases h
          · rw [initGo_cons_file_tmpl_ok exclude rel buf chars toks l st hexc hbin₂ hcopy₂
              hdec hscan] at h
            exact ⟨_, h, rfl⟩

/-- The entry store a successful `initGo` run produces is the pure fold of
the surviving entries over the starting store. -/
theorem initGo_ok_entries (exclude : List GlobPattern) (l : List WEntry)
    (st st' : InitState) (h : initGo exclude l st = .ok st') :
    st'.entries = entriesFold (l.filter (survives exclude)) st.entries := by
  induction l generalizing st with
  | nil =>
    cases h
    rfl
  | cons e l ih =>
    obtain ⟨rel, node⟩ := e
    by_cases hx : matchesPathAny exclude rel = true
    · rw [initGo_cons_excluded exclude rel node l st hx] at h
      rw [List.filter_cons_of_neg (by simp [survives, hx])]
      exact ih st h
    · have hx₂ : matchesPathAny exclude rel = false := by
        simpa using hx
      obtain ⟨st₂, h₂, hent⟩ := initGo_cons_ok_shape exclude rel node l st st' hx₂ h
      rw [List.filter_cons_of_pos (by simp [survives, hx₂])]
      rw [show entriesFold ((rel, node) :: List.filter (survives exclude) l) st.entries
          = entriesFold (List.filter (survives exclude) l)
              (btreeInsert st.entries rel.length (rel, node)) from rfl]
      rw [← hent]
      exact ih st₂ h₂

/-- Decomposition of a successful `loadTemplate`: the variables loaded, the
base resolved, `initGo` succeeded over the walk of the base subtree, and the
template's fields are the resulting state's. -/
theorem loadTemplate_ok_parts (root : List String) (meta : Metadata)
    (table : List (String × Toml)) (tree : FsTree) (tmpl : Template)
    (h : loadTemplate root meta table tree = .ok tmpl) :
    ∃ baseNode st vars,
      navigate tree meta.base = some baseNode
      ∧ loadVariables table = .ok vars
      ∧ initGo meta.exclude (walkTree meta.base baseNode)
          (InitState.mk meta.copy [] []) = .ok st
      ∧ tmpl.entries = st.entries := by
  rw [loadTemplate] at h
  rcases hv : loadVariables table with e | vars <;> simp only [hv] at h
  · cases h
  · rcases hn : navigate tree meta.base with _ | bn <;> simp only [hn] at h
    · cases h
    · rcases hi : initGo meta.exclude (walkTree meta.base bn)
          (InitState.mk meta.copy [] []) with st | e | msg <;> simp only [hi] at h
      · cases h
        exact ⟨bn, st, vars, rfl, rfl, hi, rfl⟩
      · cases h
      · cases h

/- ---------- C8 ---------- -/

/-- C8: membership in the loaded entry tree is decided entry by entry on the
template-root-relative path alone: an entry of the walk is stored iff its own
path matches no exclude pattern.  In particular a matching entry never
appears in the output of the walk stage, while the children of an excluded
directory — which the walk still visits — are kept whenever their own paths
do not match. -/
theorem c8_exclusion_per_entry (root : List String) (meta : Metadata)
    (table : List (String × Toml)) (tree : FsTree) (tmpl : Template)
    (baseNode : FsTree)
    (hnav : navigate tree meta.base = some baseNode)
    (h : loadTemplate root meta table tree = .ok tmpl) :
    ∀ e : WEntry, e ∈ tmpl.entriesList
      ↔ (e ∈ walkTree meta.base baseNode ∧ matchesPathAny meta.exclude e.1 = false) := by
  obtain ⟨bn, st, vars, hnav₂, hvars, hinit, hent⟩ := loadTemplate_ok_parts root meta table tree tmpl h
  rw [hnav] at hnav₂
  cases hnav₂
  intro e
  rw [Template.entriesList, hent, initGo_ok_entries _ _ _ _ hinit]
  rw [mem_flatten_entriesFold]
  simp only [entryMapFlatten, List.flatMap_nil, List.not_mem_nil, false_or]
  rw [List.mem_filter]
  simp [survives]

/-- The C8 subtree `sub/` containing the file `sub/f.txt`. -/
def c8sub : FsTree := .dir (.cons "f.txt" (.file [65]) .nil)

/-- The C8 template tree: just the directory `sub`. -/
def c8tree : FsTree := .dir (.cons "sub" c8sub .nil)

/-- The exclude pattern `sub` (compiled). -/
def c8pat : GlobPattern := GlobPattern.mk [.char 's', .char 'u', .char 'b']

/-- Metadata excluding `sub`. -/
def c8meta : Metadata := Metadata.mk "t" "a" none none [] [] [c8pat]

/-- The template that loading the C8 tree produces. -/
def c8tmpl : Template :=
  match loadTemplate c2root c8meta [] c8tree with
  | .ok t => t
  | _ => fallbackTemplate

theorem c8_witness :
    loadTemplate c2root c8meta [] c8tree = .ok c8tmpl
    ∧ matchesPathAny c8meta.exclude ["sub"] = true
    ∧ matchesPathAny c8meta.exclude ["sub", "f.txt"] = false
    ∧ (["sub", "f.txt"], FsTree.file [65]) ∈ c8tmpl.entriesList
    ∧ (["sub"], c8sub) ∉ c8tmpl.entriesList := by
  refine ⟨rfl, rfl, rfl, ?_, ?_⟩
  · exact (c8_exclusion_per_entry c2root c8meta [] c8tree c8tmpl c8tree rfl rfl
      (["sub", "f.txt"], FsTree.file [65])).2
      ⟨List.Mem.tail _ (List.Mem.tail _ (List.Mem.head _)), rfl⟩
  · intro hmem
    have hfalse := ((c8_exclusion_per_entry c2root c8meta [] c8tree c8tmpl c8tree rfl rfl
      (["sub"], c8sub)).1 hmem).2
    have htrue : matchesPathAny c8meta.exclude ["sub"] = true := rfl
    rw [htrue] at hfalse
    cases hfalse

/- ---------- C7 ---------- -/

/-- C7: on a successfully loaded template, the flattened entry iteration that
`Template::generate` consumes (`entriesList`, the value order of the
depth-keyed `BTreeMap`) is ascending in depth (path-component count); within
any one depth it equals the surviving walk entries of that depth in discovery
order; and consequently any entry with a strictly shorter path — in
particular a directory containing another entry — occurs strictly earlier in
the iteration than that entry. -/
theorem c7_depth_order (root : List String) (meta : Metadata)
    (table : List (String × Toml)) (tree : FsTree) (tmpl : Template)
    (baseNode : FsTree)
    (hnav : navigate tree meta.base = some baseNode)
    (h : loadTemplate root meta table tree = .ok tmpl) :
    List.Pairwise (fun a b : WEntry => a.1.length ≤ b.1.length) tmpl.entriesList
    ∧ (∀ d, tmpl.entriesList.filter (fun e => e.1.length == d)
        = ((walkTree meta.base baseNode).filter (survives meta.exclude)).filter
            (fun e => e.1.length == d))
    ∧ ∀ (i j : Fin tmpl.entriesList.length),
        (tmpl.entriesList.get i).1.length < (tmpl.entriesList.get j).1.length → i < j := by
  obtain ⟨bn, st, vars, hnav₂, hvars, hinit, hent⟩ :=
    loadTemplate_ok_parts root meta table tree tmpl h
  rw [hnav] at hnav₂
  cases hnav₂
  have hfold : tmpl.entriesList
      = entryMapFlatten (entriesFold
          ((walkTree meta.base baseNode).filter (survives meta.exclude)) []) := by
    rw [Template.entriesList, hent, initGo_ok_entries _ _ _ _ hinit]
  have hOk : bucketsOk (entriesFold
      ((walkTree meta.base baseNode).filter (survives meta.exclude)) []) :=
    bucketsOk_entriesFold _ _ bucketsOk_nil
  have hpair : List.Pairwise (fun a b : WEntry => a.1.length ≤ b.1.length)
      tmpl.entriesList := by
    rw [hfold]
    exact flatten_pairwise _ hOk
  refine ⟨hpair, ?_, ?_⟩
  · intro d
    rw [hfold]
    have hff := flatten_filter_entriesFold
      ((walkTree meta.base baseNode).filter (survives meta.exclude)) [] d bucketsOk_nil
    simpa [entryMapFlatten] using hff
  · intro i j hlt
    rcases Nat.lt_trichotomy i.val j.val with hij | hij | hij
    · exact hij
    · exfalso
      have : i = j := Fin.ext hij
      subst this
      exact lt_irrefl _ hlt
    · exfalso
      have hle := (List.pairwise_iff_get.1 hpair) j i hij
      omega

/-- The C7 tree: a directory `sub` with a file inside, plus a top-level file. -/
def c7tree : FsTree :=
  .dir (.cons "sub" (.dir (.cons "a.txt" (.file [65]) .nil))
    (.cons "top.txt" (.file [66]) .nil))

/-- The template that loading the C7 tree produces. -/
def c7tmpl : Template :=
  match loadTemplate c2root c2meta [] c7tree with
  | .ok t => t
  | _ => fallbackTemplate

theorem c7_witness :
    loadTemplate c2root c2meta [] c7tree = .ok c7tmpl
    ∧ navigate c7tree ([] : List String) = some c7tree
    ∧ List.Pairwise (fun a b : WEntry => a.1.length ≤ b.1.length) c7tmpl.entriesList
    ∧ c7tmpl.entriesList.map Prod.fst = [[], ["sub"], ["top.txt"], ["sub", "a.txt"]] :=
  ⟨rfl, rfl, (c7_depth_order c2root c2meta [] c7tree c7tmpl c7tree rfl rfl).1, rfl⟩

/- ---------- helper lemmas: escape_default and the template scanner ---------- -/

/-- Printable ASCII characters that `escape_default` passes through unchanged
and that carry no meaning for the template scanner: not braces, backslash or
quotes. -/
def plainChar (c : Char) : Bool :=
  0x20 ≤ c.toNat && c.toNat ≤ 0x7E
    && c.toNat ≠ 123 && c.toNat ≠ 125 && c.toNat ≠ 92 && c.toNat ≠ 39 && c.toNat ≠ 34

theorem escChar_eq_self_of_bounds (c : Char)
    (h₁ : 0x20 ≤ c.toNat) (h₂ : c.toNat ≤ 0x7E)
    (h₃ : c.toNat ≠ 92) (h₄ : c.toNat ≠ 39) (h₅ : c.toNat ≠ 34) :
    escChar c = [c] := by
  rw [escChar]
  rw [if_neg (by omega), if_neg (by omega), if_neg (by omega), if_neg (by omega),
    if_neg (by omega), if_neg (by omega),
    if_pos (by simp only [Bool.and_eq_true, decide_eq_true_eq]; omega)]

theorem escChar_plain (c : Char) (h : plainChar c = true) : escChar c = [c] := by
  simp only [plainChar, Bool.and_eq_true, decide_eq_true_eq] at h
  exact escChar_eq_self_of_bounds c (by omega) (by omega) (by omega) (by omega) (by omega)

theorem escChar_ident (c : Char) (h : isIdentChar c = true) : escChar c = [c] := by
  simp only [isIdentChar, isIdentStart, Bool.or_eq_true, Bool.and_eq_true,
    decide_eq_true_eq] at h
  exact escChar_eq_self_of_bounds c (by omega) (by omega) (by omega) (by omega) (by omega)

theorem flatMap_escChar_id (l : List Char) (h : ∀ c ∈ l, escChar c = [c]) :
    l.flatMap escChar = l := by
  induction l with
  | nil => rfl
  | cons c l ih =>
    rw [List.flatMap_cons, h c (List.mem_cons_self _ _),
      ih (fun x hx => h x (List.mem_cons_of_mem _ hx))]
    rfl

theorem char_ne_of_toNat_ne {c d : Char} (h : c.toNat ≠ d.toNat) : c ≠ d :=
  fun he => h (he ▸ rfl)

theorem plain_ne_lbrace (c : Char) (h : plainChar c = true) : c ≠ lbrace := by
  simp only [plainChar, Bool.and_eq_true, decide_eq_true_eq] at h
  have h123 : lbrace.toNat = 123 := rfl
  exact char_ne_of_toNat_ne (by omega)

theorem plain_ne_rbrace (c : Char) (h : plainChar c = true) : c ≠ rbrace := by
  simp only [plainChar, Bool.and_eq_true, decide_eq_true_eq] at h
  have h125 : rbrace.toNat = 125 := rfl
  exact char_ne_of_toNat_ne (by omega)

theorem ident_ne_rbrace (c : Char) (h : isIdentChar c = true) : c ≠ rbrace := by
  simp only [isIdentChar, isIdentStart, Bool.or_eq_true, Bool.and_eq_true,
    decide_eq_true_eq] at h
  have h125 : rbrace.toNat = 125 := rfl
  exact char_ne_of_toNat_ne (by omega)

theorem scanTmpl_lit_cons (c : Char) (rest : List Char) (hc : c ≠ lbrace) :
    scanTmpl .lit (c :: rest) = (scanTmpl .lit rest).map (fun ts => Tok.ch c :: ts) := by
  cases rest with
  | nil => simp [scanTmpl, hc]
  | cons c₂ rest₂ => simp [scanTmpl, hc]

theorem scanTmpl_lit_append (l rest : List Char) (h : ∀ c ∈ l, c ≠ lbrace) :
    scanTmpl .lit (l ++ rest)
      = (scanTmpl .lit rest).map (fun ts => l.map Tok.ch ++ ts) := by
  induction l with
  | nil =>
    rw [List.nil_append]
    cases hX : scanTmpl .lit rest <;> simp [hX]
  | cons c l ih =>
    rw [List.cons_append, scanTmpl_lit_cons c _ (h c (List.mem_cons_self _ _)),
      ih (fun x hx => h x (List.mem_cons_of_mem _ hx))]
    cases hX : scanTmpl .lit rest <;> simp [hX]

theorem scanTmpl_varAcc_cons (c : Char) (rest : List Char) (acc : List Char)
    (hc : c ≠ rbrace) :
    scanTmpl (.varAcc acc) (c :: rest) = scanTmpl (.varAcc (c :: acc)) rest := by
  cases rest with
  | nil => simp [scanTmpl, hc]
  | cons c₂ rest₂ => simp [scanTmpl, hc]

theorem scanTmpl_varAcc_append (l rest : List Char) (acc : List Char)
    (h : ∀ c ∈ l, c ≠ rbrace) :
    scanTmpl (.varAcc acc) (l ++ rest) = scanTmpl (.varAcc (l.reverse ++ acc)) rest := by
  induction l generalizing acc with
  | nil => rfl
  | cons c l ih =>
    rw [List.cons_append, scanTmpl_varAcc_cons c _ acc (h c (List.mem_cons_self _ _)),
      ih (c :: acc) (fun x hx => h x (List.mem_cons_of_mem _ hx))]
    simp

theorem scanTmpl_varAcc_close (acc rest : List Char) :
    scanTmpl (.varAcc acc) (rbrace :: rbrace :: rest)
      = match parseVarBody acc.reverse with
        | some name => (scanTmpl .lit rest).map (fun ts => Tok.var name :: ts)
        | none => none := by
  simp [scanTmpl]

theorem takeWhile_all_append (p : Char → Bool) (l : List Char) (x : Char)
    (h : ∀ c ∈ l, p c = true) (hx : p x = false) :
    (l ++ [x]).takeWhile p = l ∧ (l ++ [x]).dropWhile p = [x] := by
  induction l with
  | nil => simp [List.takeWhile, List.dropWhile, hx]
  | cons c l ih =>
    obtain ⟨ht, hd⟩ := ih (fun y hy => h y (List.mem_cons_of_mem _ hy))
    have hc := h c (List.mem_cons_self _ _)
    constructor
    · rw [List.cons_append, List.takeWhile_cons, if_pos (by simp [hc]), ht]
    · rw [List.cons_append, List.dropWhile_cons, if_pos (by simp [hc]), hd]

theorem ws_not_ident (c : Char) (h : isWs c = true) : isIdentChar c = false := by
  simp only [isWs, Bool.or_eq_true, decide_eq_true_eq] at h
  have hn : c.toNat = 32 ∨ c.toNat = 9 := by
    rcases h with h | h
    · exact Or.inl (by rw [h]; rfl)
    · exact Or.inr h
  rw [Bool.eq_false_iff]
  intro hid
  simp only [isIdentChar, isIdentStart, Bool.or_eq_true, Bool.and_eq_true,
    decide_eq_true_eq] at hid
  omega

theorem ident_not_ws (c : Char) (h : isIdentChar c = true) : isWs c = false := by
  simp only [isIdentChar, isIdentStart, Bool.or_eq_true, Bool.and_eq_true,
    decide_eq_true_eq] at h
  rw [Bool.eq_false_iff]
  intro hws
  simp only [isWs, Bool.or_eq_true, decide_eq_true_eq] at hws
  have hn : c.toNat = 32 ∨ c.toNat = 9 := by
    rcases hws with h₂ | h₂
    · exact Or.inl (by rw [h₂]; rfl)
    · exact Or.inr h₂
  omega

theorem parseVarBody_spaced (name : List Char) (c₀ : Char) (cs : List Char)
    (hname : name = c₀ :: cs) (hstart : isIdentStart c₀ = true)
    (hall : ∀ c ∈ name, isIdentChar c = true) :
    parseVarBody (' ' :: (name ++ [' '])) = some (String.mk name) := by
  subst hname
  have hsp : isWs ' ' = true := rfl
  have hspId : isIdentChar ' ' = false := ws_not_ident ' ' hsp
  obtain ⟨htake, hdrop⟩ := takeWhile_all_append isIdentChar (c₀ :: cs) ' ' hall hspId
  have hskip : skipWs (' ' :: ((c₀ :: cs) ++ [' '])) = c₀ :: (cs ++ [' ']) := by
    rw [skipWs, List.dropWhile_cons, if_pos (by simp [hsp])]
    rw [List.cons_append, List.dropWhile_cons,
      if_neg (by simp [ident_not_ws c₀ (hall c₀ (List.mem_cons_self _ _))])]
  have hskipsp : skipWs [' '] = ([] : List Char) := by
    rw [skipWs, List.dropWhile_cons, if_pos (by simp [hsp])]
    rfl
  simp only [parseVarBody, hskip]
  rw [if_pos hstart]
  rw [show (c₀ :: (cs ++ [' '])).dropWhile isIdentChar
      = ((c₀ :: cs) ++ [' ']).dropWhile isIdentChar from rfl]
  rw [hdrop, hskipsp]
  rw [show (c₀ :: (cs ++ [' '])).takeWhile isIdentChar
      = ((c₀ :: cs) ++ [' ']).takeWhile isIdentChar from rfl]
  rw [htake]
  rfl

theorem renderChars_chs_append (values : Ctx) (l : List Char) (ts : Tmpl) :
    renderChars values (l.map Tok.ch ++ ts) = l ++ renderChars values ts := by
  induction l with
  | nil => rfl
  | cons c l ih => rw [List.map_cons, List.cons_append, renderChars, ih, List.cons_append]

/-- C4 amended: a path component referencing a variable absent from the
context renders with the empty string substituted for the reference — the
lenient undefined behaviour of the environment `Template::load` constructs —
and `render_path` SUCCEEDS rather than failing; path separators between
literal components survive as literal separators. -/
theorem c4_lenient_renders_undefined_as_empty (pre post : List Char) (name : String)
    (values : Ctx)
    (hpre : ∀ c ∈ pre, plainChar c = true) (hpost : ∀ c ∈ post, plainChar c = true)
    (hstart : ∃ c₀ cs, name.data = c₀ :: cs ∧ isIdentStart c₀ = true)
    (hall : ∀ c ∈ name.data, isIdentChar c = true)
    (hlookup : ctxLookup values name = none) :
    render_path
        [String.mk pre,
         String.mk (lbrace :: lbrace :: ' ' :: (name.data ++ ' ' :: rbrace :: rbrace :: post))]
        values
      = .ok (String.mk (pre ++ '/' :: post)) := by
  obtain ⟨c₀, cs, hdata, hc₀⟩ := hstart
  have hsp : plainChar ' ' = true := rfl
  have hsl : plainChar '/' = true := rfl
  -- the printed path, character by character
  have hpath : (path_to_string
      [String.mk pre,
       String.mk (lbrace :: lbrace :: ' ' :: (name.data ++ ' ' :: rbrace :: rbrace :: post))]).data
      = pre ++ '/' :: lbrace :: lbrace :: ' ' :: (name.data ++ ' ' :: rbrace :: rbrace :: post) := by
    show (String.mk pre ++ "/"
        ++ String.mk (lbrace :: lbrace :: ' ' :: (name.data ++ ' ' :: rbrace :: rbrace :: post))).data
      = _
    rw [String.data_append, String.data_append]
    rw [show ("/" : String).data = ['/'] from rfl]
    rw [List.append_assoc]
    rfl
  -- escaping leaves every character of this path unchanged
  have hesc : (escapeDefault (path_to_string
      [String.mk pre,
       String.mk (lbrace :: lbrace :: ' ' :: (name.data ++ ' ' :: rbrace :: rbrace :: post))])).data
      = pre ++ '/' :: lbrace :: lbrace :: ' ' :: (name.data ++ ' ' :: rbrace :: rbrace :: post) := by
    rw [escapeDefault, hpath]
    show List.flatMap _ escChar = _
    rw [flatMap_escChar_id]
    intro c hc
    simp only [List.mem_append, List.mem_cons] at hc
    rcases hc with hc | hc | hc | hc | hc | hc
    · exact escChar_plain c (hpre c hc)
    · subst hc
      exact escChar_plain _ hsl
    · subst hc
      rfl
    · subst hc
      rfl
    · subst hc
      exact escChar_plain _ hsp
    · rcases hc with hc | hc | hc | hc | hc
      · exact escChar_ident c (hall c hc)
      · subst hc
        exact escChar_plain _ hsp
      · subst hc
        rfl
      · subst hc
        rfl
      · exact escChar_plain c (hpost c hc)
  -- scanning the escaped path
  have hscan : scanTmpl .lit
      (pre ++ '/' :: lbrace :: lbrace :: ' ' :: (name.data ++ ' ' :: rbrace :: rbrace :: post))
      = some ((pre ++ ['/']).map Tok.ch ++ (Tok.var name :: post.map Tok.ch)) := by
    have hstep₁ : pre ++ '/' :: lbrace :: lbrace :: ' ' :: (name.data ++ ' ' :: rbrace :: rbrace :: post)
        = (pre ++ ['/']) ++ (lbrace :: lbrace :: (' ' :: (name.data ++ [' '])) ++ (rbrace :: rbrace :: post)) := by
      simp
    rw [hstep₁]
    rw [scanTmpl_lit_append (pre ++ ['/']) _ (by
      intro c hc
      rcases List.mem_append.1 hc with hc | hc
      · exact plain_ne_lbrace c (hpre c hc)
      · simp only [List.mem_singleton] at hc
        subst hc
        exact plain_ne_lbrace _ hsl)]
    have hstep₂ : scanTmpl .lit
        (lbrace :: lbrace :: (' ' :: (name.data ++ [' '])) ++ (rbrace :: rbrace :: post))
        = scanTmpl (.varAcc []) ((' ' :: (name.data ++ [' '])) ++ (rbrace :: rbrace :: post)) := by
      rfl
    rw [hstep₂]
    rw [scanTmpl_varAcc_append (' ' :: (name.data ++ [' '])) _ [] (by
      intro c hc
      rcases List.mem_cons.1 hc with hc | hc
      · subst hc
        exact plain_ne_rbrace _ hsp
      · rcases List.mem_append.1 hc with hc | hc
        · exact ident_ne_rbrace c (hall c hc)
        · simp only [List.mem_singleton] at hc
          subst hc
          exact plain_ne_rbrace _ hsp)]
    rw [scanTmpl_varAcc_close]
    rw [List.append_nil, List.reverse_reverse]
    rw [parseVarBody_spaced name.data c₀ cs hdata hc₀ hall]
    have hpost₂ : scanTmpl .lit post = some (post.map Tok.ch) := by
      have hX := scanTmpl_lit_append post [] (fun c hc => plain_ne_lbrace c (hpost c hc))
      rw [List.append_nil] at hX
      rw [show scanTmpl .lit ([] : List Char) = some [] from rfl] at hX
      simpa using hX
    rw [hpost₂]
    rfl
  -- rendering the scanned template
  rw [render_path, renderStr, parseTmpl]
  rw [show (escapeDefault (path_to_string
      [String.mk pre,
       String.mk (lbrace :: lbrace :: ' ' :: (name.data ++ ' ' :: rbrace :: rbrace :: post))])).data
      = pre ++ '/' :: lbrace :: lbrace :: ' ' :: (name.data ++ ' ' :: rbrace :: rbrace :: post)
    from hesc]
  rw [hscan]
  show Except.ok (renderToks values _) = _
  rw [renderToks]
  rw [renderChars_chs_append]
  rw [renderChars]
  rw [hlookup]
  rw [show (Option.getD (none : Option Value) Value.vUndefined) = Value.vUndefined from rfl]
  rw [show valueToString Value.vUndefined = "" from rfl]
  rw [show ("" : String).data = ([] : List Char) from rfl]
  have hrc : renderChars values (post.map Tok.ch) = post := by
    have hX := renderChars_chs_append values post []
    rw [List.append_nil] at hX
    rw [show renderChars values [] = ([] : List Char) from rfl] at hX
    simpa using hX
  rw [hrc]
  simp

theorem c4_witness :
    (∀ c ∈ "dir".data, plainChar c = true)
    ∧ (∀ c ∈ ".txt".data, plainChar c = true)
    ∧ ctxLookup [] "missing" = none
    ∧ String.mk (lbrace :: lbrace :: ' ' :: ("missing".data ++ ' ' :: rbrace :: rbrace :: ".txt".data))
        = "\x7b\x7b missing \x7d\x7d.txt"
    ∧ render_path
        ["dir" , String.mk (lbrace :: lbrace :: ' ' :: ("missing".data ++ ' ' :: rbrace :: rbrace :: ".txt".data))]
        []
      = .ok "dir/.txt" := by
  refine ⟨by decide, by decide, rfl, rfl, ?_⟩
  have h := c4_lenient_renders_undefined_as_empty "dir".data ".txt".data "missing" []
    (by decide) (by decide) ⟨'m', "issing".data, rfl, rfl⟩ (by decide) rfl
  exact h

end Tapgen
